import Mathlib

/-!
Verification development for the jsonrpc-cpp-lib JSON-RPC 2.0 endpoint
library.  The definitions below are a shallow embedding of the C++ sources:

* `src/include/jsonrpc/transport/message_framer.hpp` (`MessageFramer`)
* `src/src/endpoint/dispatcher.cpp` (`Dispatcher`)
* `src/src/endpoint/response.cpp` (`Response`)
* `src/src/endpoint/request.cpp` (`Request`)
* `src/include/jsonrpc/endpoint/pending_request.hpp` (`PendingRequest`)
* `src/src/endpoint/endpoint.cpp` (`RpcEndpoint`)

JSON values (`nlohmann::json`) are modelled by an inductive `Json` type whose
objects are key-sorted association lists, mirroring the `std::map` object
storage of nlohmann (insertion keeps keys sorted and unique).  Machine
integers are modelled by `Nat`/`Int` with explicit `% 2 ^ 64` where the C++
`std::size_t` arithmetic can wrap, and `std::stoi`'s `int` range check is
modelled explicitly (out-of-range throws, caught by the framer).  C++
exceptions are modelled with `Except`.
-/

/-- Json models an `nlohmann::json` value: null, boolean, (integer) number,
string, array or object.  Objects hold their members as a key-sorted
association list, matching nlohmann's `std::map` storage.  Floating-point
numbers and binary values do not occur in the verified code paths and are
omitted. -/
inductive Json where
  | null : Json
  | bool (b : Bool) : Json
  | num (n : Int) : Json
  | str (s : String) : Json
  | arr (items : List Json) : Json
  | obj (members : List (String × Json)) : Json

/-- charListLt is lexicographic order on character lists, modelling the
`std::string` comparison that orders `std::map` keys (identical to byte
order on the ASCII keys occurring here). -/
def charListLt : List Char → List Char → Bool
  | [], [] => false
  | [], _ :: _ => true
  | _ :: _, [] => false
  | a :: as, b :: bs =>
    if a.toNat < b.toNat then true
    else if b.toNat < a.toNat then false
    else charListLt as bs

/-- strLtB compares strings as `std::string::operator<` does. -/
def strLtB (a b : String) : Bool := charListLt a.data b.data

/-- objInsert models `json[key] = value` on an object: `std::map`
insert-or-assign, keeping the member list sorted by key and keys unique. -/
def objInsert (key : String) (v : Json) : List (String × Json) → List (String × Json)
  | [] => [(key, v)]
  | (k, w) :: rest =>
    if key = k then (key, v) :: rest
    else if strLtB key k then (key, v) :: (k, w) :: rest
    else (k, w) :: objInsert key v rest

/-- objOfList builds an object member list by inserting the given pairs in
order, as nlohmann does for a `{{"k", v}, ...}` initializer list. -/
def objOfList (pairs : List (String × Json)) : List (String × Json) :=
  pairs.foldl (fun acc kv => objInsert kv.1 kv.2 acc) []

/-- alistLookup models `std::map::find` / `unordered_map::find` on an
association list. -/
def alistLookup {κ β : Type} [DecidableEq κ] : List (κ × β) → κ → Option β
  | [], _ => none
  | (k, v) :: rest, key => if key = k then some v else alistLookup rest key

/-- alistErase models `map::erase(it)` after a successful find: it removes
the entry with the given key. -/
def alistErase {κ β : Type} [DecidableEq κ] : List (κ × β) → κ → List (κ × β)
  | [], _ => []
  | (k, v) :: rest, key => if key = k then rest else (k, v) :: alistErase rest key

/-- jsonGet models `j.contains(k)` / `j[k]` on a JSON value: member lookup on
objects, absent on every other type (as `contains` is false there). -/
def jsonGet (j : Json) (key : String) : Option Json :=
  match j with
  | Json.obj members => alistLookup members key
  | _ => none

/-- escapeString models nlohmann's string escaping in `dump()`: quote,
backslash and the named control characters get two-character escapes, other
control characters an `\uXXXX` escape; everything else is copied. -/
def escapeString (s : String) : String :=
  s.data.foldl
    (fun acc c =>
      if c = Char.ofNat 34 then acc ++ "\\\""
      else if c = Char.ofNat 92 then acc ++ "\\\\"
      else if c = Char.ofNat 8 then acc ++ "\\b"
      else if c = Char.ofNat 12 then acc ++ "\\f"
      else if c = Char.ofNat 10 then acc ++ "\\n"
      else if c = Char.ofNat 13 then acc ++ "\\r"
      else if c = Char.ofNat 9 then acc ++ "\\t"
      else if c.toNat < 32 then
        acc ++ "\\u00" ++ String.mk [Nat.digitChar (c.toNat / 16), Nat.digitChar (c.toNat % 16)]
      else acc.push c)
    ""

mutual

/-- dumpJson models `nlohmann::json::dump()` (no indentation): objects are
emitted with their (sorted) members, arrays in order, integers in decimal. -/
def dumpJson : Json → String
  | Json.null => "null"
  | Json.bool true => "true"
  | Json.bool false => "false"
  | Json.num n => toString n
  | Json.str s => "\"" ++ escapeString s ++ "\""
  | Json.arr items => "[" ++ dumpArrItems items ++ "]"
  | Json.obj members => "\x7b" ++ dumpObjItems members ++ "\x7d"

/-- dumpArrItems emits comma-separated array items. -/
def dumpArrItems : List Json → String
  | [] => ""
  | [x] => dumpJson x
  | x :: y :: rest => dumpJson x ++ "," ++ dumpArrItems (y :: rest)

/-- dumpObjItems emits comma-separated `"key":value` members. -/
def dumpObjItems : List (String × Json) → String
  | [] => ""
  | [(k, v)] => "\"" ++ escapeString k ++ "\":" ++ dumpJson v
  | (k, v) :: m :: rest =>
      "\"" ++ escapeString k ++ "\":" ++ dumpJson v ++ "," ++ dumpObjItems (m :: rest)

end

/-- RequestIdT models `RequestId = std::variant<int64_t, std::string>`. -/
inductive RequestIdT where
  | num (n : Int) : RequestIdT
  | str (s : String) : RequestIdT
deriving DecidableEq

/-- requestIdToJson models `response["id"] = v` via `std::visit`. -/
def requestIdToJson : RequestIdT → Json
  | RequestIdT.num n => Json.num n
  | RequestIdT.str s => Json.str s

/-- ErrorCode models the `ErrorCode` enum used by `Response::CreateLibError`
(values from `types.hpp` and `error.hpp`). -/
inductive ErrorCode where
  | kParseError
  | kInvalidRequest
  | kMethodNotFound
  | kInvalidParams
  | kInternalError
  | kServerError
  | kTransportError
  | kTimeoutError
deriving DecidableEq

/-- errorCodeValue gives `static_cast<int>(error_code)`. -/
def errorCodeValue : ErrorCode → Int
  | ErrorCode.kParseError => -32700
  | ErrorCode.kInvalidRequest => -32600
  | ErrorCode.kMethodNotFound => -32601
  | ErrorCode.kInvalidParams => -32602
  | ErrorCode.kInternalError => -32603
  | ErrorCode.kServerError => -32000
  | ErrorCode.kTransportError => -32010
  | ErrorCode.kTimeoutError => -32001

/-- errorCodeMessage gives the message chosen by the `switch` in
`Response::CreateLibError` (`src/src/endpoint/response.cpp`). -/
def errorCodeMessage : ErrorCode → String
  | ErrorCode.kParseError => "Parse error"
  | ErrorCode.kInvalidRequest => "Invalid Request"
  | ErrorCode.kMethodNotFound => "Method not found"
  | ErrorCode.kInvalidParams => "Invalid params"
  | ErrorCode.kInternalError => "Internal error"
  | ErrorCode.kServerError => "Server error"
  | ErrorCode.kTransportError => "Transport error"
  | ErrorCode.kTimeoutError => "Timeout error"

/-- createErrorResponse models `Response::CreateErrorResponse`
(`src/src/endpoint/response.cpp`, lines 111-122): builds
`{"jsonrpc":"2.0","error":{"code":code,"message":message}}` and sets `id`
to the given id, or to JSON null when absent. -/
def createErrorResponse (message : String) (code : Int) (id : Option RequestIdT) : Json :=
  let error := Json.obj (objOfList [("code", Json.num code), ("message", Json.str message)])
  let base := objOfList [("jsonrpc", Json.str "2.0"), ("error", error)]
  match id with
  | some v => Json.obj (objInsert "id" (requestIdToJson v) base)
  | none => Json.obj (objInsert "id" Json.null base)

/-- createLibError models `Response::CreateLibError`
(`src/src/endpoint/response.cpp`, lines 30-61).  The `Response` wrapper class
stores only the JSON value, so responses are modelled directly as `Json`. -/
def createLibError (code : ErrorCode) (id : Option RequestIdT := none) : Json :=
  createErrorResponse (errorCodeMessage code) (errorCodeValue code) id

/-- createResult models `Response::CreateResult`
(`src/src/endpoint/response.cpp`, lines 20-28). -/
def createResult (result : Json) (id : Option RequestIdT) : Json :=
  let base := objOfList [("jsonrpc", Json.str "2.0"), ("result", result)]
  match id with
  | some v => Json.obj (objInsert "id" (requestIdToJson v) base)
  | none => Json.obj base

/-- Request models the `Request` value class
(`src/include/jsonrpc/endpoint/request.hpp`): method, optional params, a
notification flag, and an id (the `std::variant` member default-constructs
to `int64_t{0}` for notifications). -/
structure Request where
  method : String
  params : Option Json
  is_notification : Bool
  id : RequestIdT := RequestIdT.num 0

/-- paramsFieldOk holds when the `"params"` member (if any) is an object, an
array or null, the shapes `Request::FromJson` accepts. -/
def paramsFieldOk (j : Json) : Bool :=
  match jsonGet j "params" with
  | none => true
  | some (Json.arr _) => true
  | some (Json.obj _) => true
  | some Json.null => true
  | some _ => false

/-- fromJson models `Request::FromJson` (`src/src/endpoint/request.cpp`,
lines 31-84).  In the dispatcher iteration the same validation logic throws
instead of returning `std::expected`; both are modelled by `Except String`,
with `.error` standing for the failure (exception) path.  The check order is
the source's: object, jsonrpc version, method, params shape, id type.  A
non-string `jsonrpc` member makes `get<std::string>()` throw, also an
`.error`. -/
def fromJson (j : Json) : Except String Request :=
  match j with
  | Json.obj _ =>
    match jsonGet j "jsonrpc" with
    | some (Json.str s) =>
      if s ≠ "2.0" then Except.error "Missing or invalid 'jsonrpc' version"
      else
        match jsonGet j "method" with
        | some (Json.str method) =>
          let params := jsonGet j "params"
          if paramsFieldOk j then
            match jsonGet j "id" with
            | none => Except.ok { method := method, params := params, is_notification := true }
            | some (Json.str s) =>
              Except.ok { method := method, params := params, is_notification := false, id := RequestIdT.str s }
            | some (Json.num n) =>
              Except.ok { method := method, params := params, is_notification := false, id := RequestIdT.num n }
            | some _ => Except.error "Invalid 'id' type"
          else Except.error "'params' must be object, array, or null"
        | some _ => Except.error "Missing or invalid 'method'"
        | none => Except.error "Missing or invalid 'method'"
    | some _ => Except.error "jsonrpc member is not a string: get throws"
    | none => Except.error "Missing or invalid 'jsonrpc' version"
  | _ => Except.error "Request must be a JSON object"

/-- MethodCallHandler models `std::function<json(const optional<json>&)>`;
a thrown `std::exception` with message `m` is modelled as `.error m`. -/
abbrev MethodCallHandler : Type := Option Json → Except String Json

/-- NotificationHandler models `std::function<void(const optional<json>&)>`. -/
abbrev NotificationHandler : Type := Option Json → Except String Unit

/-- Handler models `std::variant<MethodCallHandler, NotificationHandler>`. -/
inductive Handler where
  | methodCall (f : MethodCallHandler) : Handler
  | notification (f : NotificationHandler) : Handler

/-- Handlers models the dispatcher's `handlers_` map (`unordered_map<string,
Handler>`); keys are unique. -/
abbrev Handlers : Type := List (String × Handler)

/-- findHandler models `Dispatcher::FindHandler`
(`src/src/endpoint/dispatcher.cpp`, lines 133-141). -/
def findHandler (handlers : Handlers) (method : String) : Option Handler :=
  alistLookup handlers method

/-- registerMethodCall models `Dispatcher::RegisterMethodCall`
(`src/src/endpoint/dispatcher.cpp`, lines 183-186): `handlers_[method] =
handler` (insert or overwrite). -/
def registerMethodCall (method : String) (f : MethodCallHandler) (handlers : Handlers) : Handlers :=
  (method, Handler.methodCall f) :: alistErase handlers method

/-- registerNotification models `Dispatcher::RegisterNotification`
(`src/src/endpoint/dispatcher.cpp`, lines 188-191). -/
def registerNotification (method : String) (f : NotificationHandler) (handlers : Handlers) : Handlers :=
  (method, Handler.notification f) :: alistErase handlers method

/-- validateRequest models `Dispatcher::ValidateRequest`
(`src/src/endpoint/dispatcher.cpp`, lines 109-131): `some` is the error
`Response` (as JSON), `none` means the request passed validation.
`request_json["jsonrpc"] != "2.0"` is true exactly when the member is not
the string `"2.0"`. -/
def validateRequest (j : Json) : Option Json :=
  match j with
  | Json.obj _ =>
    match jsonGet j "jsonrpc" with
    | some (Json.str s) =>
      if s ≠ "2.0" then some (createLibError ErrorCode.kInvalidRequest)
      else
        match jsonGet j "method" with
        | none =>
          if (jsonGet j "id").isSome then some (createLibError ErrorCode.kInvalidRequest)
          else none
        | some (Json.str _) => none
        | some _ => some (createLibError ErrorCode.kInvalidRequest)
    | some _ => some (createLibError ErrorCode.kInvalidRequest)
    | none => some (createLibError ErrorCode.kInvalidRequest)
  | _ => some (createLibError ErrorCode.kInvalidRequest)

/-- handleMethodCall models `Dispatcher::HandleMethodCall`
(`src/src/endpoint/dispatcher.cpp`, lines 164-172): a successful handler
result becomes a result response; a thrown `std::exception` is caught and
becomes an InternalError response (the exception message is discarded). -/
def handleMethodCall (req : Request) (f : MethodCallHandler) : Json :=
  match f req.params with
  | Except.ok response_json => createResult response_json (some req.id)
  | Except.error _ => createLibError ErrorCode.kInternalError (some req.id)

/-- handleRequest models `Dispatcher::HandleRequest`
(`src/src/endpoint/dispatcher.cpp`, lines 143-162).  A notification handler
invocation catches any exception and returns nothing. -/
def handleRequest (req : Request) (h : Handler) : Option Json :=
  if !req.is_notification then
    match h with
    | Handler.methodCall f => some (handleMethodCall req f)
    | Handler.notification _ => some (createLibError ErrorCode.kInvalidRequest (some req.id))
  else
    match h with
    | Handler.notification _ => none
    | Handler.methodCall _ => none

/-- dispatchSingleRequestInner models `Dispatcher::DispatchSingleRequestInner`
(`src/src/endpoint/dispatcher.cpp`, lines 44-63).  `.error` is an exception
escaping the dispatcher (thrown by `Request::FromJson` on requests that pass
`ValidateRequest` but are not valid requests). -/
def dispatchSingleRequestInner (handlers : Handlers) (j : Json) : Except String (Option Json) :=
  match validateRequest j with
  | some validation_error => Except.ok (some validation_error)
  | none =>
    match fromJson j with
    | Except.error e => Except.error e
    | Except.ok req =>
      match findHandler handlers req.method with
      | none =>
        if !req.is_notification then
          Except.ok (some (createLibError ErrorCode.kMethodNotFound (some req.id)))
        else Except.ok none
      | some h => Except.ok (handleRequest req h)

/-- dispatchSingleRequest models `Dispatcher::DispatchSingleRequest`
(`src/src/endpoint/dispatcher.cpp`, lines 35-42). -/
def dispatchSingleRequest (handlers : Handlers) (j : Json) : Except String (Option String) :=
  match dispatchSingleRequestInner handlers j with
  | Except.error e => Except.error e
  | Except.ok (some response_json) => Except.ok (some (dumpJson response_json))
  | Except.ok none => Except.ok none

/-- dispatchBatchRequestInner models `Dispatcher::DispatchBatchRequestInner`
(`src/src/endpoint/dispatcher.cpp`, lines 79-107): every element is
dispatched and the `some` responses are collected in input order (the
futures are awaited in input order). -/
def dispatchBatchRequestInner (handlers : Handlers) : List Json → Except String (List Json)
  | [] => Except.ok []
  | e :: rest =>
    match dispatchSingleRequestInner handlers e with
    | Except.error ex => Except.error ex
    | Except.ok r =>
      match dispatchBatchRequestInner handlers rest with
      | Except.error ex => Except.error ex
      | Except.ok rs =>
        match r with
        | some response => Except.ok (response :: rs)
        | none => Except.ok rs

/-- dispatchBatchRequest models `Dispatcher::DispatchBatchRequest`
(`src/src/endpoint/dispatcher.cpp`, lines 65-77): an empty array yields a
single InvalidRequest error response; otherwise the collected responses are
dumped as a JSON array, or nothing if every element was a notification. -/
def dispatchBatchRequest (handlers : Handlers) (elements : List Json) : Except String (Option String) :=
  if elements.isEmpty then
    Except.ok (some (dumpJson (createLibError ErrorCode.kInvalidRequest)))
  else
    match dispatchBatchRequestInner handlers elements with
    | Except.error ex => Except.error ex
    | Except.ok [] => Except.ok none
    | Except.ok responses => Except.ok (some (dumpJson (Json.arr responses)))

/-- dispatchParsed models `Dispatcher::DispatchRequest`
(`src/src/endpoint/dispatcher.cpp`, lines 12-24) after
`ParseAndValidateJson`: `none` stands for a parse failure of the input
string, `some j` for the parsed JSON value. -/
def dispatchParsed (handlers : Handlers) (parsed : Option Json) : Except String (Option String) :=
  match parsed with
  | none => Except.ok (some (dumpJson (createLibError ErrorCode.kParseError)))
  | some (Json.arr elements) => dispatchBatchRequest handlers elements
  | some j => dispatchSingleRequest handlers j

/-- PendingRequest models the mutable state of
`jsonrpc::endpoint::PendingRequest`
(`src/include/jsonrpc/endpoint/pending_request.hpp`): the stored JSON result
(default-constructed `nlohmann::json` is null), the `is_ready_` flag and the
`has_error_` flag. -/
structure PendingRequest where
  result : Json := Json.null
  is_ready : Bool := false
  has_error : Bool := false

/-- setResult models `PendingRequest::SetResult`
(`src/include/jsonrpc/endpoint/pending_request.hpp`, lines 48-60): the value
is stored and the slot marked ready only if it is not ready yet; the strand
serializes the posted bodies, which are modelled as running in order. -/
def setResult (r : Json) (p : PendingRequest) : PendingRequest :=
  if !p.is_ready then { p with result := r, is_ready := true } else p

/-- cancelRequest models `PendingRequest::Cancel`
(`src/include/jsonrpc/endpoint/pending_request.hpp`, lines 68-76): it builds
the synthetic `{"error":{"code":code,"message":message}}` payload, sets
`has_error_` unconditionally, and delegates to `SetResult`. -/
def cancelRequest (code : Int) (message : String) (p : PendingRequest) : PendingRequest :=
  let error := Json.obj (objOfList
    [("error", Json.obj (objOfList [("code", Json.num code), ("message", Json.str message)]))])
  setResult error { p with has_error := true }

/-- PendingMap models the endpoint's `pending_requests_` member
(`unordered_map<int64_t, shared_ptr<PendingRequest>>`); keys are unique. -/
abbrev PendingMap : Type := List (Int × PendingRequest)

/-- responseGetId models `Response::GetId` (`src/src/endpoint/response.cpp`,
lines 91-101): absent or null ids give `none`; a string id gives a string
`RequestId`; otherwise `get<int64_t>()` succeeds on an integer and throws on
any other type (the `.error` case). -/
def responseGetId (j : Json) : Except Unit (Option RequestIdT) :=
  match jsonGet j "id" with
  | none => Except.ok none
  | some Json.null => Except.ok none
  | some (Json.str s) => Except.ok (some (RequestIdT.str s))
  | some (Json.num n) => Except.ok (some (RequestIdT.num n))
  | some _ => Except.error ()

/-- HandleResponseOutcome describes what `RpcEndpoint::HandleResponse` did:
either it resolved (and removed) the pending slot for the response's id, or
it dropped the response with a `ClientError`. -/
inductive HandleResponseOutcome where
  | resolved (id : Int) (slot : PendingRequest) : HandleResponseOutcome
  | dropped (message : String) : HandleResponseOutcome

/-- handleResponse models `RpcEndpoint::HandleResponse`
(`src/src/endpoint/endpoint.cpp`, lines 252-284) on the response's JSON:
extract the id (missing / non-int64 ids are dropped with an error), look the
id up in the pending map on the strand, erase the entry when found and
resolve its slot with the response JSON; an unknown id is dropped with an
error.  The strand post is modelled as running synchronously. -/
def handleResponse (pending : PendingMap) (resp : Json) :
    Except Unit (PendingMap × HandleResponseOutcome) :=
  match responseGetId resp with
  | Except.error _ => Except.error ()
  | Except.ok none => Except.ok (pending, HandleResponseOutcome.dropped "Response ID missing or not int64")
  | Except.ok (some (RequestIdT.str _)) =>
    Except.ok (pending, HandleResponseOutcome.dropped "Response ID missing or not int64")
  | Except.ok (some (RequestIdT.num id)) =>
    match alistLookup pending id with
    | none => Except.ok (pending, HandleResponseOutcome.dropped ("Unknown request ID: " ++ toString id))
    | some slot =>
      Except.ok (alistErase pending id, HandleResponseOutcome.resolved id (setResult resp slot))

/-- RpcErrorCode models the `jsonrpc::error::ErrorCode` enum
(`src/include/jsonrpc/error/error.hpp`, lines 11-26). -/
inductive RpcErrorCode where
  | kParseError
  | kInvalidRequest
  | kMethodNotFound
  | kInvalidParams
  | kInternalError
  | kServerError
  | kTransportError
  | kTimeoutError
  | kClientError
deriving DecidableEq

/-- RpcError models `jsonrpc::error::RpcError`: an error kind with a
message. -/
structure RpcError where
  code : RpcErrorCode
  message : String
deriving DecidableEq

/-- EndpointSendState models the endpoint state touched by
`RpcEndpoint::SendMethodCall`: the atomic `next_request_id_` counter and the
`pending_requests_` map. -/
structure EndpointSendState where
  next_request_id : Int := 0
  pending : PendingMap := []

/-- SendPhaseOutcome describes how far `SendMethodCall` got before (or
instead of) awaiting the response: rejected because the endpoint is not
running, failed in `transport_->SendMessage`, or now awaiting the pending
slot it inserted under the allocated id. -/
inductive SendPhaseOutcome where
  | notRunning (e : RpcError) : SendPhaseOutcome
  | sendFailed (e : RpcError) : SendPhaseOutcome
  | awaiting (id : Int) (slot : PendingRequest) : SendPhaseOutcome

/-- sendMethodCallPhase1 models `RpcEndpoint::SendMethodCall`
(`src/src/endpoint/endpoint.cpp`, lines 108-139) up to the `GetResult`
await: check `is_running_`, allocate `id = next_request_id_++`, insert a
fresh `PendingRequest` under `id` (the strand post is modelled as running
synchronously), then send.  `sendError` is the outcome of
`transport_->SendMessage`: on failure the function returns the transport
error — the pending entry is not erased. -/
def sendMethodCallPhase1 (running : Bool) (s : EndpointSendState) (sendError : Option RpcError) :
    EndpointSendState × SendPhaseOutcome :=
  if !running then
    (s, SendPhaseOutcome.notRunning ⟨RpcErrorCode.kClientError, "RPC endpoint is not running"⟩)
  else
    let request_id := s.next_request_id
    let s := { s with next_request_id := request_id + 1 }
    let slot : PendingRequest := {}
    let s := { s with pending := (request_id, slot) :: alistErase s.pending request_id }
    match sendError with
    | some e => (s, SendPhaseOutcome.sendFailed e)
    | none => (s, SendPhaseOutcome.awaiting request_id slot)

/-- CallOutcome is the visible result of the tail of `SendMethodCall`:
either the `result` member of the awaited response, a returned `RpcError`,
or an escaped exception (`thrown`). -/
inductive CallOutcome where
  | ok (v : Json) : CallOutcome
  | err (e : RpcError) : CallOutcome
  | thrown : CallOutcome

/-- translateCallResult models `RpcEndpoint::SendMethodCall` after the
`GetResult` await (`src/src/endpoint/endpoint.cpp`, lines 131-138): if the
awaited JSON contains `"error"`, the error's `message` string becomes a
`kClientError`; a missing or non-string `message` makes `get<std::string>()`
throw; otherwise `result["result"]` is returned (null when absent, as
`operator[]` inserts null). -/
def translateCallResult (result : Json) : CallOutcome :=
  match jsonGet result "error" with
  | some err =>
    match jsonGet err "message" with
    | some (Json.str m) => CallOutcome.err ⟨RpcErrorCode.kClientError, m⟩
    | _ => CallOutcome.thrown
  | none =>
    match jsonGet result "result" with
    | some v => CallOutcome.ok v
    | none => CallOutcome.ok Json.null

/-- shutdownCancelPending models the cancellation sweep in
`RpcEndpoint::Shutdown` (`src/src/endpoint/endpoint.cpp`, lines 88-92):
every pending slot is cancelled with code `-32603` and message
"RPC endpoint shutting down" (the map itself is cleared afterwards, but the
callers of `SendMethodCall` still hold their slots). -/
def shutdownCancelPending (pending : PendingMap) : PendingMap :=
  pending.map (fun entry => (entry.1, cancelRequest (-32603) "RPC endpoint shutting down" entry.2))

/-- CR is the carriage-return character. -/
def CR : Char := Char.ofNat 13

/-- LF is the line-feed character. -/
def LF : Char := Char.ofNat 10

/-- crlf2 is the header terminator `"\r\n\r\n"` scanned for by
`MessageFramer::TryDeframe`. -/
def crlf2 : List Char := [CR, LF, CR, LF]

/-- listStartsWith models `std::string::starts_with` (and the prefix test of
`std::string::find`): `listStartsWith pat l` is true when `pat` is a prefix
of `l`. -/
def listStartsWith : List Char → List Char → Bool
  | [], _ => true
  | _ :: _, [] => false
  | p :: ps, c :: cs => p = c && listStartsWith ps cs

/-- findSubstr models `std::string::find(pattern)`: the least index at which
`pattern` occurs in the buffer, or `none` (`npos`). -/
def findSubstr (pat : List Char) : List Char → Option Nat
  | [] => if listStartsWith pat [] then some 0 else none
  | c :: rest =>
    if listStartsWith pat (c :: rest) then some 0
    else (findSubstr pat rest).map (· + 1)

/-- splitLines models repeated `std::getline(stream, line)` over an
`istringstream`: segments split at `LF` (which is consumed); a final segment
without a terminating `LF` is still returned, and a trailing `LF` does not
produce an extra empty line. -/
def splitLines : List Char → List (List Char)
  | [] => []
  | c :: rest =>
    if c = LF then [] :: splitLines rest
    else
      match splitLines rest with
      | [] => [[c]]
      | l :: ls => (c :: l) :: ls

/-- isSpaceC models `isspace` in the C locale (used by `strtol` inside
`std::stoi` to skip leading whitespace): space and the characters 9-13. -/
def isSpaceC (c : Char) : Bool := c.toNat = 32 || (9 ≤ c.toNat && c.toNat ≤ 13)

/-- isDigitC models the decimal-digit test of `strtol`. -/
def isDigitC (c : Char) : Bool := 48 ≤ c.toNat && c.toNat ≤ 57

/-- digitsToNat accumulates the numeric value of a list of decimal digit
characters, as `strtol` does. -/
def digitsToNat (ds : List Char) : Nat :=
  ds.foldl (fun acc c => 10 * acc + (c.toNat - 48)) 0

/-- stoi models `std::stoi` on the framer's header substring: skip C-locale
whitespace, read an optional sign, then decimal digits.  `none` models the
thrown `std::invalid_argument` (no digits) or `std::out_of_range` (value
outside the 32-bit `int` range). -/
def stoi (s : List Char) : Option Int :=
  let s1 := s.dropWhile isSpaceC
  let signed : Int × List Char :=
    if s1.head? = some (Char.ofNat 45) then (-1, s1.tail)
    else if s1.head? = some (Char.ofNat 43) then (1, s1.tail)
    else (1, s1)
  let ds := signed.2.takeWhile isDigitC
  if ds.isEmpty then none
  else
    let v : Int := signed.1 * (digitsToNat ds : Nat)
    if v < -2147483648 ∨ 2147483647 < v then none else some v

/-- intToSize models the implicit conversion from `int` to `std::size_t` in
`expected_length_ = std::stoi(...)`. -/
def intToSize (v : Int) : Nat := (v % 18446744073709551616).toNat

/-- clColon is the prefix `"Content-Length:"` tested with `starts_with`
(15 characters). -/
def clColon : List Char := "Content-Length:".data

/-- ParseHeadersOut is the outcome of the header-parsing loop in
`MessageFramer::TryDeframe`: either a `std::stoi` exception escaped the loop
(`thrown`, with the `expected_length_` member as assigned so far), or the
loop finished with the final `expected_length_` and `found_length` values. -/
inductive ParseHeadersOut where
  | thrown (exp : Nat) : ParseHeadersOut
  | done (exp : Nat) (found : Bool) : ParseHeadersOut

/-- parseHeaderLines models the `while (std::getline(...) && !empty)` loop of
`MessageFramer::TryDeframe` (`message_framer.hpp`, lines 44-57): every line
starting with `"Content-Length:"` has its tail parsed with `std::stoi` and
assigned to `expected_length_`; a parse failure aborts the loop. -/
def parseHeaderLines : List (List Char) → Nat → Bool → ParseHeadersOut
  | [], exp, found => ParseHeadersOut.done exp found
  | line :: rest, exp, found =>
    if line.isEmpty then ParseHeadersOut.done exp found
    else if listStartsWith clColon line then
      match stoi (line.drop 15) with
      | none => ParseHeadersOut.thrown exp
      | some v => parseHeaderLines rest (intToSize v) true
    else parseHeaderLines rest exp found

/-- FramerState models the private members of `MessageFramer`
(`message_framer.hpp`, lines 96-99). -/
structure FramerState where
  header_complete : Bool := false
  expected_length : Nat := 0
  header_size : Nat := 0
deriving DecidableEq

/-- freshFS is a default-constructed `MessageFramer`. -/
def freshFS : FramerState := {}

/-- DeframeResult models `MessageFramer::DeframeResult`
(`message_framer.hpp`, lines 10-15). -/
structure DeframeResult where
  complete : Bool := false
  message : List Char := []
  consumed_bytes : Nat := 0
  error : String := ""
deriving DecidableEq

/-- tryDeframe models `MessageFramer::TryDeframe` (`message_framer.hpp`,
lines 29-94), returning the updated framer state together with the result.
The `header_size_ + expected_length_` sums are `std::size_t` additions,
modelled modulo `2 ^ 64` (with a negative `Content-Length`, `substr` could
additionally throw in C++; that corner is unreachable in the theorems
below, which all have non-negative lengths).  On a header-parse error the
state keeps `header_complete_ = false` and whatever `expected_length_` the
loop assigned before failing, exactly as the member variables do. -/
def tryDeframe (st : FramerState) (buffer : List Char) : FramerState × DeframeResult :=
  let body : FramerState → FramerState × DeframeResult := fun st =>
    let total := (st.header_size + st.expected_length) % 18446744073709551616
    if buffer.length < total then
      (st, {})
    else
      let message := (buffer.drop st.header_size).take st.expected_length
      (⟨false, 0, 0⟩, { complete := true, message := message, consumed_bytes := total })
  if st.header_complete then body st
  else
    match findSubstr crlf2 buffer with
    | none => (st, {})
    | some header_end =>
      match parseHeaderLines (splitLines (buffer.take header_end)) st.expected_length false with
      | ParseHeadersOut.thrown exp =>
        ({ st with expected_length := exp }, { error := "Invalid Content-Length header" })
      | ParseHeadersOut.done exp false =>
        ({ st with expected_length := exp }, { error := "Missing Content-Length header" })
      | ParseHeadersOut.done exp true => body ⟨true, exp, header_end + 4⟩

/-- digitChar maps a value below ten to its decimal digit character, as the
`std::ostream` integer inserter prints it. -/
def digitChar : Nat → Char
  | 0 => Char.ofNat 48
  | 1 => Char.ofNat 49
  | 2 => Char.ofNat 50
  | 3 => Char.ofNat 51
  | 4 => Char.ofNat 52
  | 5 => Char.ofNat 53
  | 6 => Char.ofNat 54
  | 7 => Char.ofNat 55
  | 8 => Char.ofNat 56
  | _ => Char.ofNat 57

/-- natDigitsAux is `natDigits` with explicit fuel (the fuel only needs to
dominate the number of digits, and `natDigits` passes `n` itself). -/
def natDigitsAux : Nat → Nat → List Char
  | 0, n => [digitChar (n % 10)]
  | fuel + 1, n => if n < 10 then [digitChar n] else natDigitsAux fuel (n / 10) ++ [digitChar (n % 10)]

/-- natDigits is the decimal representation of a natural number, as
`out << message.size()` prints it. -/
def natDigits (n : Nat) : List Char := natDigitsAux n n

/-- contentTypeDefault is the default `content_type` argument of
`MessageFramer::Frame`. -/
def contentTypeDefault : List Char := "application/vscode-jsonrpc; charset=utf-8".data

/-- frameCT models `MessageFramer::Frame` (`message_framer.hpp`, lines
17-27) with an explicit content type. -/
def frameCT (content_type : List Char) (message : List Char) : List Char :=
  "Content-Length: ".data ++ natDigits message.length ++ [CR, LF] ++
    "Content-Type: ".data ++ content_type ++ [CR, LF] ++ [CR, LF] ++ message

/-- frame is `MessageFramer::Frame` with the default content type, the form
used by the endpoint. -/
def frame (message : List Char) : List Char := frameCT contentTypeDefault message

/-- drainFuel drives `TryDeframe` repeatedly over one buffer, collecting the
extracted messages and discarding `consumed_bytes` after each complete
result, until a result is not complete.  The fuel bounds the iteration
count; every complete result consumes at least the four header-terminator
bytes, so fuel `buffer.length` suffices. -/
def drainFuel : Nat → FramerState → List Char → List (List Char) × FramerState × List Char
  | 0, st, buf => ([], st, buf)
  | fuel + 1, st, buf =>
    let (st1, r) := tryDeframe st buf
    if r.complete then
      let (msgs, st2, buf2) := drainFuel fuel st1 (buf.drop r.consumed_bytes)
      (r.message :: msgs, st2, buf2)
    else ([], st1, buf)

/-- feedChunks delivers the chunks one after another to a framer: each chunk
is appended to the residual buffer, which is then drained with `drainFuel`.
It returns all messages emitted, in order. -/
def feedChunks (st : FramerState) (buf : List Char) : List (List Char) → List (List Char)
  | [] => []
  | chunk :: chunks =>
    let grown := buf ++ chunk
    let (msgs, st2, buf2) := drainFuel grown.length st grown
    msgs ++ feedChunks st2 buf2 chunks

/-- byteStates feeds the bytes of `s` to a single framer one at a time,
calling `TryDeframe` on the growing buffer after each byte; `byteStates s k`
is the framer state after the first `k` bytes. -/
def byteStates (s : List Char) : Nat → FramerState
  | 0 => freshFS
  | k + 1 => (tryDeframe (byteStates s k) (s.take (k + 1))).1

/-- byteResult is the `TryDeframe` result observed after delivering the
first `k + 1` bytes of `s`, one byte at a time. -/
def byteResult (s : List Char) (k : Nat) : DeframeResult :=
  (tryDeframe (byteStates s k) (s.take (k + 1))).2

/-- streamOf is the concatenation `frame(p1) ++ frame(p2) ++ ...`. -/
def streamOf (ps : List (List Char)) : List Char := (ps.map frame).flatten

/-- jsonIdToRequestId classifies an `"id"` member value the way
`Request::FromJson` accepts it: integers and strings; anything else is the
invalid-id-type failure. -/
def jsonIdToRequestId : Json → Option RequestIdT
  | Json.num n => some (RequestIdT.num n)
  | Json.str s => some (RequestIdT.str s)
  | _ => none

/-- idFieldOk holds when the `"id"` member is present and of a type
`Request::FromJson` accepts (integer or string). -/
def idFieldOk (j : Json) : Bool :=
  match jsonGet j "id" with
  | some (Json.num _) => true
  | some (Json.str _) => true
  | _ => false

/-- isRegisteredNotificationB recognises a batch element that is a valid
JSON-RPC notification (passes validation, has a string method and no id,
and well-formed params) whose method has a registered handler. -/
def isRegisteredNotificationB (handlers : Handlers) (j : Json) : Bool :=
  (validateRequest j).isNone &&
  (match jsonGet j "method" with
   | some (Json.str m) => (findHandler handlers m).isSome
   | _ => false) &&
  (jsonGet j "id").isNone && paramsFieldOk j

/-- producesResponseB recognises a batch element that is not a notification:
either it fails request validation (and yields a validation error response),
or it is a valid call carrying an id (and yields a call response). -/
def producesResponseB (j : Json) : Bool :=
  (validateRequest j).isSome ||
  ((validateRequest j).isNone && idFieldOk j && paramsFieldOk j)

/-- cexFailHandlers is a handler table whose method `"fail"` always throws
(with message "boom"). -/
def cexFailHandlers : Handlers :=
  [("fail", Handler.methodCall (fun _ => Except.error "boom"))]

/-- cexFailRequest is the call `{"jsonrpc":"2.0","method":"fail","id":1}`. -/
def cexFailRequest : Json :=
  Json.obj (objOfList
    [("jsonrpc", Json.str "2.0"), ("method", Json.str "fail"), ("id", Json.num 1)])

/-- hdrFull is the header block of a default `Frame` output up to (but not
including) the terminating `"\r\n\r\n"`, for a payload of length `n`. -/
def hdrFull (n : Nat) : List Char :=
  "Content-Length: ".data ++ natDigits n ++ [CR, LF] ++
    ("Content-Type: ".data ++ contentTypeDefault)

/-- c9Header is the byte sequence `"Content-Length: 32\r\n\r\n"` of the C9
scenario. -/
def c9Header : List Char := "Content-Length: 32".data ++ crlf2

/-- StEq says the framer state `st` is observationally the fresh state for
every buffer extending `buf`: the cached header fields agree with what a
fresh `TryDeframe` would recompute.  This is the invariant that lets the
stateful framer be analysed as a function of the buffer alone. -/
def StEq (st : FramerState) (buf : List Char) : Prop :=
  ∀ ext, tryDeframe st (buf ++ ext) = tryDeframe freshFS (buf ++ ext)

theorem alistLookup_eq_none_of_not_mem {κ β : Type} [DecidableEq κ]
    (l : List (κ × β)) (k : κ) (h : k ∉ l.map Prod.fst) : alistLookup l k = none := by
  induction l with
  | nil => rfl
  | cons a rest ih =>
    simp only [List.map_cons, List.mem_cons, not_or] at h
    simp only [alistLookup, h.1, if_neg]
    exact ih h.2

theorem alistLookup_erase_self {κ β : Type} [DecidableEq κ]
    (l : List (κ × β)) (k : κ) (h : (l.map Prod.fst).Nodup) :
    alistLookup (alistErase l k) k = none := by
  induction l with
  | nil => rfl
  | cons a rest ih =>
    obtain ⟨a1, a2⟩ := a
    simp only [List.map_cons, List.nodup_cons] at h
    by_cases hk : k = a1
    · subst hk
      simp only [alistErase, if_pos rfl]
      exact alistLookup_eq_none_of_not_mem rest k h.1
    · simp only [alistErase, if_neg hk, alistLookup]
      exact ih h.2

/-- C10: a JSON object with `"jsonrpc":"2.0"` but neither a `"method"` nor an
`"id"` member passes `Dispatcher::ValidateRequest` (no error), even though it
names no method; the same object with an `"id"` member of any value fails
with an InvalidRequest error. -/
theorem validateRequest_methodless (members : List (String × Json))
    (hv : alistLookup members "jsonrpc" = some (Json.str "2.0"))
    (hm : alistLookup members "method" = none) :
    (alistLookup members "id" = none → validateRequest (Json.obj members) = none) ∧
    (∀ idv, alistLookup members "id" = some idv →
      validateRequest (Json.obj members) = some (createLibError ErrorCode.kInvalidRequest)) := by
  constructor
  · intro hid
    simp [validateRequest, jsonGet, hv, hm, hid]
  · intro idv hid
    simp [validateRequest, jsonGet, hv, hm, hid]

/-- Witness for `validateRequest_methodless` at the concrete objects
`{"jsonrpc":"2.0"}` and `{"jsonrpc":"2.0","id":null}`. -/
theorem validateRequest_methodless_witness :
    validateRequest (Json.obj [("jsonrpc", Json.str "2.0")]) = none ∧
    validateRequest (Json.obj [("id", Json.null), ("jsonrpc", Json.str "2.0")]) =
      some (createLibError ErrorCode.kInvalidRequest) := by
  constructor
  · exact (validateRequest_methodless [("jsonrpc", Json.str "2.0")] rfl rfl).1 rfl
  · exact (validateRequest_methodless [("id", Json.null), ("jsonrpc", Json.str "2.0")]
      rfl rfl).2 Json.null rfl

/-- C5: dispatching the empty batch `[]` yields a single error response
object (not an array) with code `-32600` ("Invalid Request") and id null,
for any handler table. -/
theorem dispatch_empty_batch (handlers : Handlers) :
    dispatchParsed handlers (some (Json.arr [])) =
      Except.ok (some (dumpJson (Json.obj
        [("error", Json.obj [("code", Json.num (-32600)), ("message", Json.str "Invalid Request")]),
         ("id", Json.null),
         ("jsonrpc", Json.str "2.0")]))) := by
  rfl

/-- C7 counterexample: on a running endpoint with an empty pending map, a
`SendMethodCall` whose transport send fails leaves the freshly inserted
pending entry in the map (the map is not restored to its pre-call state),
while returning the transport error. -/
theorem sendMethodCall_send_failure_cex :
    (sendMethodCallPhase1 true {} (some ⟨RpcErrorCode.kTransportError, "send failed"⟩)).1.pending =
      [((0 : Int), ({} : PendingRequest))] ∧
    [((0 : Int), ({} : PendingRequest))] ≠ (({} : EndpointSendState).pending) ∧
    (sendMethodCallPhase1 true {} (some ⟨RpcErrorCode.kTransportError, "send failed"⟩)).2 =
      SendPhaseOutcome.sendFailed ⟨RpcErrorCode.kTransportError, "send failed"⟩ := by
  refine ⟨rfl, ?_, rfl⟩
  exact List.cons_ne_nil _ _

/-- C7 (amended): when `transport_->SendMessage` fails, `SendMethodCall`
returns the transport error, but the pending entry it inserted under the
allocated id stays in the pending map (it is only removed later, by the
shutdown sweep). -/
theorem sendMethodCall_send_failure (s : EndpointSendState) (e : RpcError) :
    sendMethodCallPhase1 true s (some e) =
      ({ next_request_id := s.next_request_id + 1,
         pending := (s.next_request_id, {}) :: alistErase s.pending s.next_request_id },
       SendPhaseOutcome.sendFailed e) ∧
    alistLookup (sendMethodCallPhase1 true s (some e)).1.pending s.next_request_id =
      some ({} : PendingRequest) := by
  constructor
  · rfl
  · simp [sendMethodCallPhase1, alistLookup]

/-- C8: every pending call that is still unresolved when `Shutdown` runs is
cancelled with the synthetic `{"error":{"code":-32603,"message":"RPC
endpoint shutting down"}}` payload, and `SendMethodCall` translates that
stored payload into a `kClientError` whose message is
"RPC endpoint shutting down". -/
theorem shutdown_cancels_pending (pending : PendingMap) (id : Int) (p : PendingRequest)
    (hmem : (id, p) ∈ pending) (harmed : p.is_ready = false) :
    (id, cancelRequest (-32603) "RPC endpoint shutting down" p) ∈ shutdownCancelPending pending ∧
    (cancelRequest (-32603) "RPC endpoint shutting down" p).is_ready = true ∧
    translateCallResult (cancelRequest (-32603) "RPC endpoint shutting down" p).result =
      CallOutcome.err ⟨RpcErrorCode.kClientError, "RPC endpoint shutting down"⟩ := by
  refine ⟨?_, ?_, ?_⟩
  · exact List.mem_map_of_mem (fun e => (e.1, cancelRequest (-32603) "RPC endpoint shutting down" e.2)) hmem
  · simp [cancelRequest, setResult, harmed]
  · simp [cancelRequest, setResult, harmed, translateCallResult, jsonGet, objOfList, objInsert,
      alistLookup]

/-- Witness for `shutdown_cancels_pending` at the one-entry pending map
`[(3, fresh slot)]`. -/
theorem shutdown_cancels_pending_witness :
    (3, cancelRequest (-32603) "RPC endpoint shutting down" {}) ∈
      shutdownCancelPending [((3 : Int), ({} : PendingRequest))] ∧
    (cancelRequest (-32603) "RPC endpoint shutting down" ({} : PendingRequest)).is_ready = true ∧
    translateCallResult (cancelRequest (-32603) "RPC endpoint shutting down"
        ({} : PendingRequest)).result =
      CallOutcome.err ⟨RpcErrorCode.kClientError, "RPC endpoint shutting down"⟩ :=
  shutdown_cancels_pending [((3 : Int), ({} : PendingRequest))] 3 {}
    (List.mem_singleton.mpr rfl) rfl

/-- C3: a pending slot is resolved at most once — after the first
`SetResult` stores a value, later `SetResult` or `Cancel` calls leave the
stored result unchanged — and `HandleResponse` removes the pending-map entry
on the first response for an id, so a second response with the same id finds
no entry and is dropped with an "Unknown request ID" error. -/
theorem pending_request_resolved_once :
    (∀ (p : PendingRequest) (r : Json), p.is_ready = false →
      (setResult r p).result = r ∧ (setResult r p).is_ready = true ∧
      (∀ r2, (setResult r2 (setResult r p)).result = r) ∧
      (∀ c m, (cancelRequest c m (setResult r p)).result = r)) ∧
    (∀ (pending : PendingMap) (id : Int) (slot : PendingRequest) (resp : Json),
      (pending.map Prod.fst).Nodup →
      alistLookup pending id = some slot →
      jsonGet resp "id" = some (Json.num id) →
      handleResponse pending resp =
        Except.ok (alistErase pending id, HandleResponseOutcome.resolved id (setResult resp slot)) ∧
      alistLookup (alistErase pending id) id = none ∧
      handleResponse (alistErase pending id) resp =
        Except.ok (alistErase pending id,
          HandleResponseOutcome.dropped ("Unknown request ID: " ++ toString id))) := by
  constructor
  · intro p r h
    refine ⟨?_, ?_, ?_, ?_⟩
    · simp [setResult, h]
    · simp [setResult, h]
    · intro r2
      simp [setResult, h]
    · intro c m
      simp [cancelRequest, setResult, h]
  · intro pending id slot resp hnodup hlook hid
    have herase := alistLookup_erase_self pending id hnodup
    refine ⟨?_, herase, ?_⟩
    · simp [handleResponse, responseGetId, hid, hlook]
    · simp [handleResponse, responseGetId, hid, herase]

/-- Witness for `pending_request_resolved_once`: a slot set twice keeps the
first value, and the response `{"id":5,"result":null}` resolves and removes
entry 5, after which the same response is dropped. -/
theorem pending_request_resolved_once_witness :
    (setResult (Json.str "first") ({} : PendingRequest)).result = Json.str "first" ∧
    (setResult Json.null (setResult (Json.str "first") ({} : PendingRequest))).result =
      Json.str "first" ∧
    handleResponse [((5 : Int), ({} : PendingRequest))]
        (Json.obj [("id", Json.num 5), ("result", Json.null)]) =
      Except.ok ([], HandleResponseOutcome.resolved 5
        (setResult (Json.obj [("id", Json.num 5), ("result", Json.null)]) {})) ∧
    handleResponse ([] : PendingMap) (Json.obj [("id", Json.num 5), ("result", Json.null)]) =
      Except.ok ([], HandleResponseOutcome.dropped ("Unknown request ID: " ++ toString (5 : Int))) := by
  have hA := (pending_request_resolved_once.1 {} (Json.str "first") rfl)
  have hB := (pending_request_resolved_once.2 [((5 : Int), ({} : PendingRequest))] 5 {}
    (Json.obj [("id", Json.num 5), ("result", Json.null)]) (by simp) rfl rfl)
  exact ⟨hA.1, hA.2.2.1 Json.null, hB.1, hB.2.2⟩

/-- C6 counterexample: a registered handler for `"fail"` that throws with
message "boom" yields for the call `{"jsonrpc":"2.0","method":"fail","id":1}`
an InternalError response whose error object has `code` `-32603` and the
default message "Internal error", and carries no `"data"` member at all —
the exception message is not placed in `data`. -/
theorem handler_exception_no_data_cex :
    dispatchSingleRequestInner cexFailHandlers cexFailRequest =
      Except.ok (some (createLibError ErrorCode.kInternalError (some (RequestIdT.num 1)))) ∧
    jsonGet (createLibError ErrorCode.kInternalError (some (RequestIdT.num 1))) "error" =
      some (Json.obj [("code", Json.num (-32603)), ("message", Json.str "Internal error")]) ∧
    jsonGet (Json.obj [("code", Json.num (-32603)), ("message", Json.str "Internal error")])
      "data" = none :=
  ⟨rfl, rfl, rfl⟩

/-- C6 (amended): a valid call whose registered method handler throws gets
an error response with code `-32603` (InternalError) carrying the request's
id and the fixed message "Internal error"; the error object has no `data`
member (the exception message is discarded by the `catch`), and the
exception does not propagate out of dispatch (the result is `ok`). -/
theorem handler_exception_internal_error (handlers : Handlers)
    (members : List (String × Json)) (m : String) (f : MethodCallHandler) (msg : String)
    (idj : Json) (idt : RequestIdT)
    (hv : alistLookup members "jsonrpc" = some (Json.str "2.0"))
    (hm : alistLookup members "method" = some (Json.str m))
    (hp : paramsFieldOk (Json.obj members) = true)
    (hid : alistLookup members "id" = some idj)
    (hidt : jsonIdToRequestId idj = some idt)
    (hh : findHandler handlers m = some (Handler.methodCall f))
    (hf : f (alistLookup members "params") = Except.error msg) :
    dispatchSingleRequest handlers (Json.obj members) =
      Except.ok (some (dumpJson (createLibError ErrorCode.kInternalError (some idt)))) ∧
    jsonGet (createLibError ErrorCode.kInternalError (some idt)) "error" =
      some (Json.obj [("code", Json.num (-32603)), ("message", Json.str "Internal error")]) ∧
    jsonGet (Json.obj [("code", Json.num (-32603)), ("message", Json.str "Internal error")])
      "data" = none := by
  refine ⟨?_, rfl, rfl⟩
  cases idj with
  | num n =>
    cases hidt
    simp [dispatchSingleRequest, dispatchSingleRequestInner, validateRequest, fromJson, jsonGet,
      hv, hm, hp, hid, hh, handleRequest, handleMethodCall, hf]
  | str s =>
    cases hidt
    simp [dispatchSingleRequest, dispatchSingleRequestInner, validateRequest, fromJson, jsonGet,
      hv, hm, hp, hid, hh, handleRequest, handleMethodCall, hf]
  | null => exact absurd hidt (by simp [jsonIdToRequestId])
  | bool b => exact absurd hidt (by simp [jsonIdToRequestId])
  | arr items => exact absurd hidt (by simp [jsonIdToRequestId])
  | obj mem2 => exact absurd hidt (by simp [jsonIdToRequestId])

/-- Witness for `handler_exception_internal_error` at the throwing handler
table `cexFailHandlers` and the call `{"jsonrpc":"2.0","method":"fail","id":1}`. -/
theorem handler_exception_internal_error_witness :
    dispatchSingleRequest cexFailHandlers cexFailRequest =
      Except.ok (some (dumpJson (createLibError ErrorCode.kInternalError
        (some (RequestIdT.num 1))))) :=
  (handler_exception_internal_error cexFailHandlers
    (objOfList [("jsonrpc", Json.str "2.0"), ("method", Json.str "fail"), ("id", Json.num 1)])
    "fail" (fun _ => Except.error "boom") "boom" (Json.num 1) (RequestIdT.num 1)
    rfl rfl rfl rfl rfl rfl rfl).1

/-- C4: a valid single call whose method has no registered handler yields a
MethodNotFound (`-32601`) error response carrying the request's id; a valid
notification (no id) with an unregistered method yields no response. -/
theorem dispatch_method_not_found :
    (∀ (handlers : Handlers) (members : List (String × Json)) (m : String)
        (idj : Json) (idt : RequestIdT),
      alistLookup members "jsonrpc" = some (Json.str "2.0") →
      alistLookup members "method" = some (Json.str m) →
      paramsFieldOk (Json.obj members) = true →
      alistLookup members "id" = some idj →
      jsonIdToRequestId idj = some idt →
      findHandler handlers m = none →
      dispatchSingleRequest handlers (Json.obj members) =
        Except.ok (some (dumpJson (createLibError ErrorCode.kMethodNotFound (some idt)))) ∧
      jsonGet (createLibError ErrorCode.kMethodNotFound (some idt)) "error" =
        some (Json.obj [("code", Json.num (-32601)), ("message", Json.str "Method not found")]) ∧
      jsonGet (createLibError ErrorCode.kMethodNotFound (some idt)) "id" =
        some (requestIdToJson idt)) ∧
    (∀ (handlers : Handlers) (members : List (String × Json)) (m : String),
      alistLookup members "jsonrpc" = some (Json.str "2.0") →
      alistLookup members "method" = some (Json.str m) →
      paramsFieldOk (Json.obj members) = true →
      alistLookup members "id" = none →
      findHandler handlers m = none →
      dispatchSingleRequest handlers (Json.obj members) = Except.ok none) := by
  constructor
  · intro handlers members m idj idt hv hm hp hid hidt hh
    refine ⟨?_, rfl, rfl⟩
    cases idj with
    | num n =>
      cases hidt
      simp [dispatchSingleRequest, dispatchSingleRequestInner, validateRequest, fromJson,
        jsonGet, hv, hm, hp, hid, hh]
    | str s =>
      cases hidt
      simp [dispatchSingleRequest, dispatchSingleRequestInner, validateRequest, fromJson,
        jsonGet, hv, hm, hp, hid, hh]
    | null => exact absurd hidt (by simp [jsonIdToRequestId])
    | bool b => exact absurd hidt (by simp [jsonIdToRequestId])
    | arr items => exact absurd hidt (by simp [jsonIdToRequestId])
    | obj mem2 => exact absurd hidt (by simp [jsonIdToRequestId])
  · intro handlers members m hv hm hp hid hh
    simp [dispatchSingleRequest, dispatchSingleRequestInner, validateRequest, fromJson,
      jsonGet, hv, hm, hp, hid, hh]

/-- Witness for `dispatch_method_not_found` at the empty handler table, the
call `{"jsonrpc":"2.0","method":"unknown","id":1}` and the notification
`{"jsonrpc":"2.0","method":"unknown"}`. -/
theorem dispatch_method_not_found_witness :
    dispatchSingleRequest []
        (Json.obj (objOfList [("jsonrpc", Json.str "2.0"), ("method", Json.str "unknown"),
          ("id", Json.num 1)])) =
      Except.ok (some (dumpJson (createLibError ErrorCode.kMethodNotFound
        (some (RequestIdT.num 1))))) ∧
    dispatchSingleRequest []
        (Json.obj (objOfList [("jsonrpc", Json.str "2.0"), ("method", Json.str "unknown")])) =
      Except.ok none :=
  ⟨(dispatch_method_not_found.1 []
      (objOfList [("jsonrpc", Json.str "2.0"), ("method", Json.str "unknown"), ("id", Json.num 1)])
      "unknown" (Json.num 1) (RequestIdT.num 1) rfl rfl rfl rfl rfl rfl).1,
   dispatch_method_not_found.2 []
      (objOfList [("jsonrpc", Json.str "2.0"), ("method", Json.str "unknown")])
      "unknown" rfl rfl rfl rfl rfl⟩

/-- C2 counterexample: the one-element batch
`[{"id":1,"jsonrpc":"2.0","method":"m","params":5}]` (size 1, zero
notifications) should, per the claim, yield a JSON array of exactly one
response object.  The element passes `Dispatcher::ValidateRequest` (which
never inspects `params`) and is a non-notification (it carries id 1), but
`Request::FromJson` throws on the scalar `params`, so the exception escapes
`DispatchRequest` and no response string is returned at all. -/
theorem dispatch_batch_shape_cex :
    validateRequest (Json.obj [("id", Json.num 1), ("jsonrpc", Json.str "2.0"),
      ("method", Json.str "m"), ("params", Json.num 5)]) = none ∧
    jsonGet (Json.obj [("id", Json.num 1), ("jsonrpc", Json.str "2.0"),
      ("method", Json.str "m"), ("params", Json.num 5)]) "id" = some (Json.num 1) ∧
    dispatchParsed []
        (some (Json.arr [Json.obj [("id", Json.num 1), ("jsonrpc", Json.str "2.0"),
          ("method", Json.str "m"), ("params", Json.num 5)]])) =
      Except.error "'params' must be object, array, or null" :=
  ⟨rfl, rfl, rfl⟩

theorem validateRequest_none_inv (e : Json) (h : validateRequest e = none) :
    (∃ members, e = Json.obj members) ∧ jsonGet e "jsonrpc" = some (Json.str "2.0") ∧
    ((jsonGet e "method" = none ∧ jsonGet e "id" = none) ∨
      ∃ m, jsonGet e "method" = some (Json.str m)) := by
  cases e with
  | obj members =>
    refine ⟨⟨members, rfl⟩, ?_, ?_⟩
    · cases hv : jsonGet (Json.obj members) "jsonrpc" with
      | none => simp [validateRequest, hv] at h
      | some v =>
        cases v with
        | str s =>
          by_cases hs : s = "2.0"
          · subst hs; rfl
          · simp [validateRequest, hv, hs] at h
        | null => simp [validateRequest, hv] at h
        | bool b => simp [validateRequest, hv] at h
        | num n => simp [validateRequest, hv] at h
        | arr xs => simp [validateRequest, hv] at h
        | obj ms => simp [validateRequest, hv] at h
    · cases hv : jsonGet (Json.obj members) "jsonrpc" with
      | none => simp [validateRequest, hv] at h
      | some v =>
        cases v with
        | str s =>
          by_cases hs : s = "2.0"
          · subst hs
            cases hm : jsonGet (Json.obj members) "method" with
            | none =>
              left
              refine ⟨rfl, ?_⟩
              cases hid : jsonGet (Json.obj members) "id" with
              | none => rfl
              | some idv => simp [validateRequest, hv, hm, hid] at h
            | some mv =>
              cases mv with
              | str m => exact Or.inr ⟨m, rfl⟩
              | null => simp [validateRequest, hv, hm] at h
              | bool b => simp [validateRequest, hv, hm] at h
              | num n => simp [validateRequest, hv, hm] at h
              | arr xs => simp [validateRequest, hv, hm] at h
              | obj ms => simp [validateRequest, hv, hm] at h
          · simp [validateRequest, hv, hs] at h
        | null => simp [validateRequest, hv] at h
        | bool b => simp [validateRequest, hv] at h
        | num n => simp [validateRequest, hv] at h
        | arr xs => simp [validateRequest, hv] at h
        | obj ms => simp [validateRequest, hv] at h
  | null => simp [validateRequest] at h
  | bool b => simp [validateRequest] at h
  | num n => simp [validateRequest] at h
  | str s => simp [validateRequest] at h
  | arr xs => simp [validateRequest] at h

theorem registered_notification_no_response (handlers : Handlers) (e : Json)
    (h : isRegisteredNotificationB handlers e = true) :
    dispatchSingleRequestInner handlers e = Except.ok none := by
  simp only [isRegisteredNotificationB, Bool.and_eq_true, Option.isNone_iff_eq_none] at h
  obtain ⟨⟨⟨hvn, hmfound⟩, hid⟩, hp⟩ := h
  obtain ⟨⟨members, hemem⟩, hv, _⟩ := validateRequest_none_inv e hvn
  subst hemem
  cases hm : jsonGet (Json.obj members) "method" with
  | none => rw [hm] at hmfound; simp at hmfound
  | some mv =>
    cases mv with
    | str m =>
      rw [hm] at hmfound
      simp only [Option.isSome_iff_exists] at hmfound
      obtain ⟨hfound, hhandler⟩ := hmfound
      simp only [jsonGet] at hv hm hid
      cases hfound with
      | methodCall f =>
        simp [dispatchSingleRequestInner, hvn, fromJson, jsonGet, hv, hm, hp, hid, hhandler,
          handleRequest]
      | notification f =>
        simp [dispatchSingleRequestInner, hvn, fromJson, jsonGet, hv, hm, hp, hid, hhandler,
          handleRequest]
    | null => rw [hm] at hmfound; simp at hmfound
    | bool b => rw [hm] at hmfound; simp at hmfound
    | num n => rw [hm] at hmfound; simp at hmfound
    | arr xs => rw [hm] at hmfound; simp at hmfound
    | obj ms => rw [hm] at hmfound; simp at hmfound

theorem produces_response_some (handlers : Handlers) (e : Json)
    (h : producesResponseB e = true) :
    ∃ r, dispatchSingleRequestInner handlers e = Except.ok (some r) := by
  simp only [producesResponseB, Bool.or_eq_true, Bool.and_eq_true] at h
  cases h with
  | inl hsomev =>
    rw [Option.isSome_iff_exists] at hsomev
    obtain ⟨v, hv⟩ := hsomev
    exact ⟨v, by simp [dispatchSingleRequestInner, hv]⟩
  | inr hcall =>
    obtain ⟨⟨hvn, hidok⟩, hp⟩ := hcall
    rw [Option.isNone_iff_eq_none] at hvn
    obtain ⟨⟨members, hemem⟩, hv, hmcase⟩ := validateRequest_none_inv e hvn
    subst hemem
    have hmses : ∃ m, jsonGet (Json.obj members) "method" = some (Json.str m) := by
      cases hmcase with
      | inl habs =>
        exfalso
        simp [idFieldOk, habs.2] at hidok
      | inr hm => exact hm
    obtain ⟨m, hm⟩ := hmses
    have hidv : (∃ n, jsonGet (Json.obj members) "id" = some (Json.num n)) ∨
        ∃ s, jsonGet (Json.obj members) "id" = some (Json.str s) := by
      simp only [idFieldOk] at hidok
      cases hid : jsonGet (Json.obj members) "id" with
      | none => rw [hid] at hidok; simp at hidok
      | some idv =>
        cases idv with
        | num n => exact Or.inl ⟨n, rfl⟩
        | str s => exact Or.inr ⟨s, rfl⟩
        | null => rw [hid] at hidok; simp at hidok
        | bool b => rw [hid] at hidok; simp at hidok
        | arr xs => rw [hid] at hidok; simp at hidok
        | obj ms => rw [hid] at hidok; simp at hidok
    simp only [jsonGet] at hv hm
    cases hidv with
    | inl hnum =>
      obtain ⟨n, hid⟩ := hnum
      simp only [jsonGet] at hid
      cases hh : findHandler handlers m with
      | none =>
        exact ⟨createLibError ErrorCode.kMethodNotFound (some (RequestIdT.num n)),
          by simp [dispatchSingleRequestInner, hvn, fromJson, jsonGet, hv, hm, hp, hid, hh]⟩
      | some hd =>
        cases hd with
        | methodCall f =>
          exact ⟨handleMethodCall
              { method := m, params := alistLookup members "params",
                is_notification := false, id := RequestIdT.num n } f,
            by simp [dispatchSingleRequestInner, hvn, fromJson, jsonGet, hv, hm, hp, hid, hh,
              handleRequest]⟩
        | notification f =>
          exact ⟨createLibError ErrorCode.kInvalidRequest (some (RequestIdT.num n)),
            by simp [dispatchSingleRequestInner, hvn, fromJson, jsonGet, hv, hm, hp, hid, hh,
              handleRequest]⟩
    | inr hstr =>
      obtain ⟨s, hid⟩ := hstr
      simp only [jsonGet] at hid
      cases hh : findHandler handlers m with
      | none =>
        exact ⟨createLibError ErrorCode.kMethodNotFound (some (RequestIdT.str s)),
          by simp [dispatchSingleRequestInner, hvn, fromJson, jsonGet, hv, hm, hp, hid, hh]⟩
      | some hd =>
        cases hd with
        | methodCall f =>
          exact ⟨handleMethodCall
              { method := m, params := alistLookup members "params",
                is_notification := false, id := RequestIdT.str s } f,
            by simp [dispatchSingleRequestInner, hvn, fromJson, jsonGet, hv, hm, hp, hid, hh,
              handleRequest]⟩
        | notification f =>
          exact ⟨createLibError ErrorCode.kInvalidRequest (some (RequestIdT.str s)),
            by simp [dispatchSingleRequestInner, hvn, fromJson, jsonGet, hv, hm, hp, hid, hh,
              handleRequest]⟩

theorem produces_response_not_notification (handlers : Handlers) (e : Json)
    (h : producesResponseB e = true) : isRegisteredNotificationB handlers e = false := by
  simp only [producesResponseB, Bool.or_eq_true, Bool.and_eq_true] at h
  simp only [isRegisteredNotificationB]
  cases h with
  | inl hsomev =>
    rw [Option.isSome_iff_exists] at hsomev
    obtain ⟨v, hv⟩ := hsomev
    simp [hv]
  | inr hcall =>
    obtain ⟨⟨hvn, hidok⟩, hp⟩ := hcall
    simp only [idFieldOk] at hidok
    cases hid : jsonGet e "id" with
    | none => rw [hid] at hidok; simp at hidok
    | some idv => simp [hid]

theorem batchInner_shape (handlers : Handlers) (elements : List Json)
    (hsplit : ∀ e ∈ elements,
      isRegisteredNotificationB handlers e = true ∨ producesResponseB e = true) :
    ∃ rs, dispatchBatchRequestInner handlers elements = Except.ok rs ∧
      rs.length = elements.length -
        (elements.filter (fun e => isRegisteredNotificationB handlers e)).length := by
  induction elements with
  | nil => exact ⟨[], rfl, rfl⟩
  | cons e rest ih =>
    obtain ⟨rs, hrs, hlen⟩ := ih (fun x hx => hsplit x (List.mem_cons_of_mem e hx))
    cases hsplit e (List.mem_cons_self e rest) with
    | inl hnotif =>
      refine ⟨rs, ?_, ?_⟩
      · simp [dispatchBatchRequestInner, registered_notification_no_response handlers e hnotif,
          hrs]
      · simp [List.filter_cons, hnotif, hlen, Nat.succ_sub_succ]
    | inr hresp =>
      obtain ⟨r, hr⟩ := produces_response_some handlers e hresp
      refine ⟨r :: rs, ?_, ?_⟩
      · simp [dispatchBatchRequestInner, hr, hrs]
      · have hnn := produces_response_not_notification handlers e hresp
        have hkle : (rest.filter (fun x => isRegisteredNotificationB handlers x)).length ≤
            rest.length := List.length_filter_le _ _
        simp [List.filter_cons, hnn, hlen, List.length_cons, Nat.succ_sub hkle]

/-- C2: for a non-empty batch of size `n` in which every element is either a
valid notification with a registered handler (`k` of them) or a
non-notification element, the dispatcher returns no response when `n = k`,
and otherwise a JSON array of exactly `n - k` response objects. -/
theorem dispatch_batch_shape (handlers : Handlers) (elements : List Json)
    (hne : elements ≠ [])
    (hsplit : ∀ e ∈ elements,
      isRegisteredNotificationB handlers e = true ∨ producesResponseB e = true) :
    ((elements.filter (fun e => isRegisteredNotificationB handlers e)).length = elements.length →
      dispatchParsed handlers (some (Json.arr elements)) = Except.ok none) ∧
    ((elements.filter (fun e => isRegisteredNotificationB handlers e)).length ≠ elements.length →
      ∃ rs, rs.length = elements.length -
          (elements.filter (fun e => isRegisteredNotificationB handlers e)).length ∧
        0 < rs.length ∧
        dispatchParsed handlers (some (Json.arr elements)) =
          Except.ok (some (dumpJson (Json.arr rs)))) := by
  obtain ⟨rs, hrs, hlen⟩ := batchInner_shape handlers elements hsplit
  have hnonempty : elements.isEmpty = false := by
    cases elements with
    | nil => exact absurd rfl hne
    | cons a l => rfl
  constructor
  · intro hk
    have hrs0 : rs = [] := by
      have : rs.length = 0 := by rw [hlen, hk, Nat.sub_self]
      exact List.length_eq_zero.mp this
    subst hrs0
    simp [dispatchParsed, dispatchBatchRequest, hnonempty, hrs]
  · intro hk
    have hkle : (elements.filter (fun e => isRegisteredNotificationB handlers e)).length ≤
        elements.length := List.length_filter_le _ _
    have hpos : 0 < rs.length := by
      rw [hlen]
      exact Nat.sub_pos_of_lt (lt_of_le_of_ne hkle hk)
    refine ⟨rs, hlen, hpos, ?_⟩
    cases rs with
    | nil => simp at hpos
    | cons r rest =>
      simp [dispatchParsed, dispatchBatchRequest, hnonempty, hrs]

/-- Witness for `dispatch_batch_shape` at a two-element batch: a registered
notification (`"note"`) and a call to an unregistered method with id 1, for
a handler table registering only `"note"` — one response object results. -/
theorem dispatch_batch_shape_witness :
    ∃ rs, rs.length = 1 ∧ 0 < rs.length ∧
      dispatchParsed [("note", Handler.notification (fun _ => Except.ok ()))]
          (some (Json.arr
            [Json.obj [("jsonrpc", Json.str "2.0"), ("method", Json.str "note")],
             Json.obj [("id", Json.num 1), ("jsonrpc", Json.str "2.0"),
               ("method", Json.str "sum")]])) =
        Except.ok (some (dumpJson (Json.arr rs))) :=
  (dispatch_batch_shape [("note", Handler.notification (fun _ => Except.ok ()))]
    [Json.obj [("jsonrpc", Json.str "2.0"), ("method", Json.str "note")],
     Json.obj [("id", Json.num 1), ("jsonrpc", Json.str "2.0"), ("method", Json.str "sum")]]
    (by simp)
    (by
      intro e he
      simp only [List.mem_cons, List.not_mem_nil, or_false] at he
      rcases he with rfl | rfl
      · left; rfl
      · right; rfl)).2 (by decide)

theorem listStartsWith_append_self (xs t : List Char) : listStartsWith xs (xs ++ t) = true := by
  induction xs with
  | nil => rfl
  | cons x rest ih => simp [listStartsWith, ih]

theorem listStartsWith_length_le (pat l : List Char) (h : listStartsWith pat l = true) :
    pat.length ≤ l.length := by
  induction pat generalizing l with
  | nil => simp
  | cons p ps ih =>
    cases l with
    | nil => simp [listStartsWith] at h
    | cons c cs =>
      simp only [listStartsWith, Bool.and_eq_true] at h
      simpa using ih cs h.2

theorem listStartsWith_of_take (pat ys : List Char) (m : Nat)
    (h : listStartsWith pat (ys.take m) = true) : listStartsWith pat ys = true := by
  induction pat generalizing ys m with
  | nil => rfl
  | cons p ps ih =>
    cases ys with
    | nil => simpa [List.take_nil] using h
    | cons c cs =>
      cases m with
      | zero => simp [listStartsWith] at h
      | succ m' =>
        simp only [List.take_succ_cons, listStartsWith, Bool.and_eq_true] at h ⊢
        exact ⟨h.1, ih cs m' h.2⟩

theorem listStartsWith_append_of_le_length (pat l ext : List Char) (h : pat.length ≤ l.length) :
    listStartsWith pat (l ++ ext) = listStartsWith pat l := by
  induction pat generalizing l with
  | nil => rfl
  | cons p ps ih =>
    cases l with
    | nil => simp at h
    | cons c cs =>
      simp only [List.cons_append, listStartsWith, List.append_eq]
      simp only [List.length_cons, Nat.succ_le_succ_iff] at h
      rw [ih cs h]

theorem listStartsWith_append_right (pat l ext : List Char)
    (h : listStartsWith pat l = true) : listStartsWith pat (l ++ ext) = true := by
  rw [listStartsWith_append_of_le_length pat l ext (listStartsWith_length_le pat l h)]
  exact h

theorem findSubstr_eq_some_iff (pat : List Char) :
    ∀ (xs : List Char) (i : Nat),
      findSubstr pat xs = some i ↔
        (listStartsWith pat (xs.drop i) = true ∧
          ∀ j, j < i → listStartsWith pat (xs.drop j) = false) := by
  intro xs
  induction xs with
  | nil =>
    intro i
    by_cases h : listStartsWith pat [] = true
    · rw [show findSubstr pat [] = if listStartsWith pat [] = true then some 0 else none from rfl,
        if_pos h]
      constructor
      · intro hi
        injection hi with hi0
        subst hi0
        exact ⟨by rw [List.drop_nil]; exact h, fun j hj => absurd hj (Nat.not_lt_zero j)⟩
      · rintro ⟨hs, hall⟩
        rcases Nat.eq_zero_or_pos i with rfl | hpos
        · rfl
        · have h0 := hall 0 hpos
          rw [List.drop_nil, h] at h0
          simp at h0
    · rw [show findSubstr pat [] = if listStartsWith pat [] = true then some 0 else none from rfl,
        if_neg h]
      constructor
      · intro hfalse; simp at hfalse
      · rintro ⟨hs, _⟩
        rw [List.drop_nil] at hs
        exact absurd hs h
  | cons c rest ih =>
    intro i
    by_cases h : listStartsWith pat (c :: rest) = true
    · rw [show findSubstr pat (c :: rest) =
          if listStartsWith pat (c :: rest) = true then some 0
          else (findSubstr pat rest).map (· + 1) from rfl, if_pos h]
      constructor
      · intro hi
        injection hi with hi0
        subst hi0
        exact ⟨by rw [List.drop_zero]; exact h, fun j hj => absurd hj (Nat.not_lt_zero j)⟩
      · rintro ⟨hs, hall⟩
        rcases Nat.eq_zero_or_pos i with rfl | hpos
        · rfl
        · have h0 := hall 0 hpos
          rw [List.drop_zero, h] at h0
          simp at h0
    · rw [show findSubstr pat (c :: rest) =
          if listStartsWith pat (c :: rest) = true then some 0
          else (findSubstr pat rest).map (· + 1) from rfl, if_neg h]
      constructor
      · intro hi
        rw [Option.map_eq_some'] at hi
        obtain ⟨i', hi', hadd⟩ := hi
        subst hadd
        obtain ⟨hstart, hall⟩ := (ih i').mp hi'
        refine ⟨by rw [List.drop_succ_cons]; exact hstart, ?_⟩
        intro j hj
        cases j with
        | zero =>
          rw [List.drop_zero]
          exact eq_false_of_ne_true h
        | succ j' =>
          rw [List.drop_succ_cons]
          exact hall j' (Nat.lt_of_succ_lt_succ hj)
      · rintro ⟨hstart, hall⟩
        cases i with
        | zero =>
          rw [List.drop_zero] at hstart
          exact absurd hstart h
        | succ i' =>
          rw [Option.map_eq_some']
          refine ⟨i', (ih i').mpr ⟨by rw [List.drop_succ_cons] at hstart; exact hstart, ?_⟩, rfl⟩
          intro j hj
          have hj1 := hall (j + 1) (Nat.succ_lt_succ hj)
          rw [List.drop_succ_cons] at hj1
          exact hj1

theorem findSubstr_eq_none_iff (pat : List Char) :
    ∀ xs : List Char,
      findSubstr pat xs = none ↔ ∀ j, listStartsWith pat (xs.drop j) = false := by
  intro xs
  induction xs with
  | nil =>
    by_cases h : listStartsWith pat [] = true
    · rw [show findSubstr pat [] = if listStartsWith pat [] = true then some 0 else none from rfl,
        if_pos h]
      constructor
      · intro hfalse; simp at hfalse
      · intro hall
        have h0 := hall 0
        rw [List.drop_nil, h] at h0
        simp at h0
    · rw [show findSubstr pat [] = if listStartsWith pat [] = true then some 0 else none from rfl,
        if_neg h]
      refine ⟨fun _ j => ?_, fun _ => rfl⟩
      rw [List.drop_nil]
      exact eq_false_of_ne_true h
  | cons c rest ih =>
    by_cases h : listStartsWith pat (c :: rest) = true
    · rw [show findSubstr pat (c :: rest) =
          if listStartsWith pat (c :: rest) = true then some 0
          else (findSubstr pat rest).map (· + 1) from rfl, if_pos h]
      constructor
      · intro hfalse; simp at hfalse
      · intro hall
        have h0 := hall 0
        rw [List.drop_zero, h] at h0
        simp at h0
    · rw [show findSubstr pat (c :: rest) =
          if listStartsWith pat (c :: rest) = true then some 0
          else (findSubstr pat rest).map (· + 1) from rfl, if_neg h]
      rw [Option.map_eq_none', ih]
      constructor
      · intro hall j
        cases j with
        | zero =>
          rw [List.drop_zero]
          exact eq_false_of_ne_true h
        | succ j' =>
          rw [List.drop_succ_cons]
          exact hall j'
      · intro hall j
        have hj1 := hall (j + 1)
        rw [List.drop_succ_cons] at hj1
        exact hj1

theorem findSubstr_append_no_cr (xs ys : List Char) (h : ∀ c ∈ xs, c ≠ CR) :
    findSubstr crlf2 (xs ++ ys) = (findSubstr crlf2 ys).map (· + xs.length) := by
  induction xs with
  | nil =>
    simp only [List.nil_append, List.length_nil]
    cases findSubstr crlf2 ys with
    | none => rfl
    | some i => simp
  | cons x rest ih =>
    have hx : x ≠ CR := h x (List.mem_cons_self x rest)
    have hstart : listStartsWith crlf2 (x :: (rest ++ ys)) = false := by
      simp only [crlf2, listStartsWith, Bool.and_eq_false_iff]
      left
      simp [Ne.symm hx]
    rw [show findSubstr crlf2 (x :: rest ++ ys) =
        if listStartsWith crlf2 (x :: (rest ++ ys)) = true then some 0
        else (findSubstr crlf2 (rest ++ ys)).map (· + 1) from rfl]
    rw [hstart]
    simp only [Bool.false_eq_true, if_false]
    rw [ih (fun c hc => h c (List.mem_cons_of_mem x hc))]
    cases findSubstr crlf2 ys with
    | none => rfl
    | some i =>
      simp only [Option.map_some', List.length_cons]
      exact congrArg some (by omega)

theorem findSubstr_crlf2_fits (buf : List Char) (pos : Nat)
    (h : findSubstr crlf2 buf = some pos) : pos + 4 ≤ buf.length := by
  have hs := ((findSubstr_eq_some_iff crlf2 buf pos).mp h).1
  have hlen := listStartsWith_length_le crlf2 _ hs
  simp only [crlf2, List.length_cons, List.length_nil, List.length_drop] at hlen
  omega

theorem findSubstr_append_found (buf ext : List Char) (pos : Nat)
    (h : findSubstr crlf2 buf = some pos) :
    findSubstr crlf2 (buf ++ ext) = some pos := by
  obtain ⟨hs, hfirst⟩ := (findSubstr_eq_some_iff crlf2 buf pos).mp h
  have hfits := findSubstr_crlf2_fits buf pos h
  rw [findSubstr_eq_some_iff]
  constructor
  · rw [List.drop_append_of_le_length (by omega)]
    exact listStartsWith_append_right _ _ _ hs
  · intro j hj
    rw [List.drop_append_of_le_length (by omega)]
    rw [listStartsWith_append_of_le_length]
    · exact hfirst j hj
    · simp only [crlf2, List.length_cons, List.length_nil, List.length_drop]
      omega

theorem splitLines_append_lf (xs ys : List Char) (h : ∀ c ∈ xs, c ≠ LF) :
    splitLines (xs ++ LF :: ys) = xs :: splitLines ys := by
  induction xs with
  | nil => simp [splitLines]
  | cons x rest ih =>
    have hx : x ≠ LF := h x (List.mem_cons_self x rest)
    rw [List.cons_append]
    rw [show splitLines (x :: (rest ++ LF :: ys)) =
        if x = LF then [] :: splitLines (rest ++ LF :: ys)
        else match splitLines (rest ++ LF :: ys) with
          | [] => [[x]]
          | l :: ls => (x :: l) :: ls from rfl]
    rw [if_neg hx, ih (fun c hc => h c (List.mem_cons_of_mem x hc))]

theorem splitLines_no_lf (xs : List Char) (h : ∀ c ∈ xs, c ≠ LF) (hne : xs ≠ []) :
    splitLines xs = [xs] := by
  induction xs with
  | nil => exact absurd rfl hne
  | cons x rest ih =>
    have hx : x ≠ LF := h x (List.mem_cons_self x rest)
    rw [show splitLines (x :: rest) =
        if x = LF then [] :: splitLines rest
        else match splitLines rest with
          | [] => [[x]]
          | l :: ls => (x :: l) :: ls from rfl]
    rw [if_neg hx]
    cases hrest : rest with
    | nil => rfl
    | cons r rs =>
      rw [← hrest, ih (fun c hc => h c (List.mem_cons_of_mem x hc)) (by rw [hrest]; simp)]

theorem natDigitsAux_fuel (fuel : Nat) :
    ∀ (fuel' n : Nat), n ≤ fuel → n ≤ fuel' → natDigitsAux fuel n = natDigitsAux fuel' n := by
  induction fuel with
  | zero =>
    intro fuel' n h h'
    interval_cases n
    cases fuel' with
    | zero => rfl
    | succ f' => rfl
  | succ f ih =>
    intro fuel' n h h'
    cases fuel' with
    | zero =>
      interval_cases n
      rfl
    | succ f' =>
      by_cases h10 : n < 10
      · simp [natDigitsAux, h10]
      · have hd : n / 10 < n := Nat.div_lt_self (by omega) (by omega)
        simp only [natDigitsAux, h10, if_false]
        rw [ih f' (n / 10) (by omega) (by omega)]

theorem natDigits_step (n : Nat) :
    natDigits n = if n < 10 then [digitChar n]
      else natDigits (n / 10) ++ [digitChar (n % 10)] := by
  cases n with
  | zero => rfl
  | succ m =>
    by_cases h10 : m + 1 < 10
    · simp [natDigits, natDigitsAux, h10]
    · have hd : (m + 1) / 10 < m + 1 := Nat.div_lt_self (by omega) (by omega)
      simp only [natDigits, natDigitsAux, h10, if_false]
      rw [natDigitsAux_fuel m ((m + 1) / 10) ((m + 1) / 10) (by omega) (by omega)]

theorem digitChar_isDigit (d : Nat) (h : d < 10) : isDigitC (digitChar d) = true := by
  interval_cases d <;> decide

theorem digitChar_toNat (d : Nat) (h : d < 10) : (digitChar d).toNat = 48 + d := by
  interval_cases d <;> decide

theorem natDigits_all_digits (n : Nat) : ∀ c ∈ natDigits n, isDigitC c = true := by
  induction n using Nat.strong_induction_on with
  | _ n ih =>
    rw [natDigits_step]
    by_cases h10 : n < 10
    · simp only [h10, if_pos]
      intro c hc
      rw [List.mem_singleton] at hc
      subst hc
      exact digitChar_isDigit n h10
    · simp only [h10, if_false]
      intro c hc
      rw [List.mem_append] at hc
      cases hc with
      | inl hl => exact ih (n / 10) (Nat.div_lt_self (by omega) (by omega)) c hl
      | inr hr =>
        rw [List.mem_singleton] at hr
        subst hr
        exact digitChar_isDigit (n % 10) (Nat.mod_lt n (by omega))

theorem natDigits_ne_nil (n : Nat) : natDigits n ≠ [] := by
  rw [natDigits_step]
  by_cases h10 : n < 10
  · simp [h10]
  · simp [h10]

theorem isDigitC_not_cr_lf (c : Char) (h : isDigitC c = true) : c ≠ CR ∧ c ≠ LF := by
  simp only [isDigitC, Bool.and_eq_true, decide_eq_true_eq] at h
  constructor
  · intro hc; subst hc; revert h; decide
  · intro hc; subst hc; revert h; decide

theorem isDigitC_not_space (c : Char) (h : isDigitC c = true) : isSpaceC c = false := by
  simp only [isDigitC, Bool.and_eq_true, decide_eq_true_eq] at h
  simp only [isSpaceC, Bool.or_eq_false_iff, Bool.and_eq_false_iff]
  constructor
  · simp only [decide_eq_false_iff_not]
    omega
  · right
    simp only [decide_eq_false_iff_not]
    omega

theorem digitsToNat_append_digit (xs : List Char) (d : Char) :
    digitsToNat (xs ++ [d]) = 10 * digitsToNat xs + (d.toNat - 48) := by
  simp [digitsToNat, List.foldl_append]

theorem digitsToNat_natDigits (n : Nat) : digitsToNat (natDigits n) = n := by
  induction n using Nat.strong_induction_on with
  | _ n ih =>
    rw [natDigits_step]
    by_cases h10 : n < 10
    · simp only [h10, if_pos]
      simp [digitsToNat, digitChar_toNat n h10]
    · simp only [h10, if_false]
      rw [digitsToNat_append_digit, ih (n / 10) (Nat.div_lt_self (by omega) (by omega)),
        digitChar_toNat (n % 10) (Nat.mod_lt n (by omega))]
      omega

theorem natDigits_length_le (n : Nat) : (natDigits n).length ≤ n + 1 := by
  induction n using Nat.strong_induction_on with
  | _ n ih =>
    rw [natDigits_step]
    by_cases h10 : n < 10
    · simp [h10]
    · simp only [h10, if_false, List.length_append, List.length_cons, List.length_nil]
      have := ih (n / 10) (Nat.div_lt_self (by omega) (by omega))
      omega

theorem takeWhile_all {p : Char → Bool} (xs : List Char) (h : ∀ c ∈ xs, p c = true) :
    xs.takeWhile p = xs := by
  induction xs with
  | nil => rfl
  | cons x rest ih =>
    rw [List.takeWhile_cons, h x (List.mem_cons_self x rest)]
    rw [ih (fun c hc => h c (List.mem_cons_of_mem x hc))]
    simp

theorem stoi_space_digits (n : Nat) (tail : List Char) (htail : tail.takeWhile isDigitC = []) :
    stoi (Char.ofNat 32 :: (natDigits n ++ tail)) =
      if 2147483647 < n then none else some (n : Int) := by
  obtain ⟨d0, ds, hds⟩ := List.exists_cons_of_ne_nil (natDigits_ne_nil n)
  have hd0 : isDigitC d0 = true := by
    have := natDigits_all_digits n d0
    rw [hds] at this
    exact this (List.mem_cons_self d0 ds)
  have hd0n : 48 ≤ d0.toNat ∧ d0.toNat ≤ 57 := by
    simpa [isDigitC, Bool.and_eq_true, decide_eq_true_eq] using hd0
  have hdrop : (Char.ofNat 32 :: (natDigits n ++ tail)).dropWhile isSpaceC =
      natDigits n ++ tail := by
    rw [List.dropWhile_cons]
    have h32 : isSpaceC (Char.ofNat 32) = true := by decide
    rw [h32]
    simp only [if_pos]
    rw [hds, List.cons_append, List.dropWhile_cons, isDigitC_not_space d0 hd0]
    simp
  have htake : (natDigits n ++ tail).takeWhile isDigitC = natDigits n := by
    rw [List.takeWhile_append, takeWhile_all (natDigits n) (natDigits_all_digits n)]
    simp [htail]
  have hhead : (natDigits n ++ tail).head? = some d0 := by
    rw [hds, List.cons_append, List.head?_cons]
  simp only [stoi, hdrop, hhead]
  have hne45 : ¬ (some d0 = some (Char.ofNat 45)) := by
    intro heq
    injection heq with heq
    have : d0.toNat = 45 := by rw [heq]; decide
    omega
  have hne43 : ¬ (some d0 = some (Char.ofNat 43)) := by
    intro heq
    injection heq with heq
    have : d0.toNat = 43 := by rw [heq]; decide
    omega
  rw [if_neg hne45, if_neg hne43]
  simp only [htake]
  have hne : (natDigits n).isEmpty = false := by
    rw [hds]
    rfl
  rw [hne]
  simp only [Bool.false_eq_true, if_false, one_mul, digitsToNat_natDigits]
  have hnonneg : ¬ ((n : Int) < -2147483648) := by
    have : (0 : Int) ≤ (n : Int) := Int.natCast_nonneg n
    omega
  by_cases hbig : 2147483647 < n
  · have : (2147483647 : Int) < (n : Int) := by exact_mod_cast hbig
    simp [hbig, hnonneg, this]
  · have : ¬ ((2147483647 : Int) < (n : Int)) := by
      push_neg
      exact_mod_cast Nat.le_of_not_lt hbig
    simp [hbig, hnonneg, this]

theorem listStartsWith_take (pat ys : List Char) (m : Nat) (hm : pat.length ≤ m)
    (h : listStartsWith pat ys = true) : listStartsWith pat (ys.take m) = true := by
  induction pat generalizing ys m with
  | nil => rfl
  | cons p ps ih =>
    cases ys with
    | nil => simp [listStartsWith] at h
    | cons c cs =>
      cases m with
      | zero => simp at hm
      | succ m' =>
        simp only [listStartsWith, Bool.and_eq_true] at h
        simp only [List.take_succ_cons, listStartsWith, Bool.and_eq_true]
        simp only [List.length_cons, Nat.succ_le_succ_iff] at hm
        exact ⟨h.1, ih cs m' hm h.2⟩

theorem findSubstr_take_none (xs : List Char) (pos L : Nat)
    (hfind : findSubstr crlf2 xs = some pos) (hL : L < pos + 4) :
    findSubstr crlf2 (xs.take L) = none := by
  rw [findSubstr_eq_none_iff]
  intro j
  by_contra hmatch
  have hst : listStartsWith crlf2 ((xs.take L).drop j) = true := by
    cases hb : listStartsWith crlf2 ((xs.take L).drop j) with
    | true => rfl
    | false => exact absurd hb hmatch
  have hlen := listStartsWith_length_le _ _ hst
  have hst' : listStartsWith crlf2 (xs.drop j) = true := by
    rw [List.drop_take] at hst
    exact listStartsWith_of_take _ _ _ hst
  have hfirst := ((findSubstr_eq_some_iff crlf2 xs pos).mp hfind).2
  have hjpos : j < pos := by
    simp only [crlf2, List.length_cons, List.length_nil, List.length_drop,
      List.length_take] at hlen
    omega
  rw [hfirst j hjpos] at hst'
  simp at hst'

theorem findSubstr_take_some (xs : List Char) (pos L : Nat)
    (hfind : findSubstr crlf2 xs = some pos) (hL : pos + 4 ≤ L) :
    findSubstr crlf2 (xs.take L) = some pos := by
  obtain ⟨hs, hfirst⟩ := (findSubstr_eq_some_iff crlf2 xs pos).mp hfind
  rw [findSubstr_eq_some_iff]
  constructor
  · rw [List.drop_take]
    exact listStartsWith_take _ _ _ (by simp [crlf2]; omega) hs
  · intro j hj
    by_contra hmatch
    have hst : listStartsWith crlf2 ((xs.take L).drop j) = true := by
      cases hb : listStartsWith crlf2 ((xs.take L).drop j) with
      | true => rfl
      | false => exact absurd hb hmatch
    have hst' : listStartsWith crlf2 (xs.drop j) = true := by
      rw [List.drop_take] at hst
      exact listStartsWith_of_take _ _ _ hst
    rw [hfirst j hj] at hst'
    simp at hst'

theorem clpart_no_cr (n : Nat) : ∀ c ∈ "Content-Length: ".data ++ natDigits n, c ≠ CR := by
  intro c hc
  rw [List.mem_append] at hc
  cases hc with
  | inl hl =>
    revert hl
    revert c
    decide
  | inr hr => exact (isDigitC_not_cr_lf c (natDigits_all_digits n c hr)).1

theorem findSubstr_crlf2_start (ys : List Char) : findSubstr crlf2 (crlf2 ++ ys) = some 0 := by
  have hs : listStartsWith crlf2 (CR :: (LF :: CR :: LF :: ys)) = true :=
    listStartsWith_append_self crlf2 ys
  rw [show findSubstr crlf2 (crlf2 ++ ys) =
      if listStartsWith crlf2 (CR :: (LF :: CR :: LF :: ys)) = true then some 0
      else (findSubstr crlf2 (LF :: CR :: LF :: ys)).map (· + 1) from rfl]
  rw [if_pos hs]

theorem hdrFull_length (n : Nat) : (hdrFull n).length = 73 + (natDigits n).length := by
  simp only [hdrFull, List.length_append, List.length_cons, List.length_nil]
  have h41 : contentTypeDefault.length = 41 := rfl
  rw [h41]
  omega

theorem find_frame_core (n : Nat) (ys : List Char) :
    findSubstr crlf2 (hdrFull n ++ (crlf2 ++ ys)) = some (hdrFull n).length := by
  have h1 : hdrFull n ++ (crlf2 ++ ys) =
      ("Content-Length: ".data ++ natDigits n) ++
        (CR :: ((LF :: ("Content-Type: ".data ++ contentTypeDefault)) ++ (crlf2 ++ ys))) := by
    simp only [hdrFull, List.append_assoc, List.cons_append, List.nil_append]
  rw [h1, findSubstr_append_no_cr _ _ (clpart_no_cr n)]
  have h0 : listStartsWith crlf2
      (CR :: ((LF :: ("Content-Type: ".data ++ contentTypeDefault)) ++ (crlf2 ++ ys))) = false := by
    have hC : (LF :: ("Content-Type: ".data ++ contentTypeDefault)) ++ (crlf2 ++ ys) =
        LF :: 'C' :: ("ontent-Type: ".data ++ (contentTypeDefault ++ (crlf2 ++ ys))) := by
      simp only [List.cons_append, List.append_assoc]
    rw [hC]
    simp only [crlf2, listStartsWith, Bool.and_eq_false_iff]
    right
    right
    left
    decide
  rw [show findSubstr crlf2
      (CR :: ((LF :: ("Content-Type: ".data ++ contentTypeDefault)) ++ (crlf2 ++ ys))) =
      if listStartsWith crlf2
          (CR :: ((LF :: ("Content-Type: ".data ++ contentTypeDefault)) ++ (crlf2 ++ ys))) = true
      then some 0
      else (findSubstr crlf2
        ((LF :: ("Content-Type: ".data ++ contentTypeDefault)) ++ (crlf2 ++ ys))).map (· + 1)
      from rfl]
  rw [h0]
  simp only [Bool.false_eq_true, if_false]
  rw [findSubstr_append_no_cr _ _ (by decide), findSubstr_crlf2_start]
  simp only [Option.map_some']
  refine congrArg some ?_
  have h56 : (LF :: ("Content-Type: ".data ++ contentTypeDefault)).length = 56 := rfl
  have h16 : ("Content-Length: ".data).length = 16 := rfl
  rw [hdrFull_length, h56, List.length_append, h16]
  omega

theorem intToSize_coe (n : Nat) (h : n < 18446744073709551616) : intToSize (n : Int) = n := by
  unfold intToSize
  rw [Int.emod_eq_of_lt (Int.natCast_nonneg n) (by exact_mod_cast h)]
  simp

theorem splitLines_hdrFull (n : Nat) :
    splitLines (hdrFull n) =
      ["Content-Length: ".data ++ natDigits n ++ [CR],
       "Content-Type: ".data ++ contentTypeDefault] := by
  have h1 : hdrFull n = ("Content-Length: ".data ++ natDigits n ++ [CR]) ++
      LF :: ("Content-Type: ".data ++ contentTypeDefault) := by
    simp only [hdrFull, List.append_assoc, List.cons_append, List.nil_append]
  rw [h1]
  rw [splitLines_append_lf]
  · rw [splitLines_no_lf]
    · intro c hc
      rw [List.mem_append] at hc
      cases hc with
      | inl hl =>
        revert hl
        revert c
        decide
      | inr hr =>
        revert hr
        revert c
        decide
    · decide
  · intro c hc
    rw [List.append_assoc, List.mem_append] at hc
    cases hc with
    | inl hl =>
      revert hl
      revert c
      decide
    | inr hr =>
      rw [List.mem_append] at hr
      cases hr with
      | inl hd => exact (isDigitC_not_cr_lf c (natDigits_all_digits n c hd)).2
      | inr hcr =>
        rw [List.mem_singleton] at hcr
        subst hcr
        decide

theorem parseHeader_hdrFull (n e0 : Nat) (hn : n ≤ 2147483647) :
    parseHeaderLines (splitLines (hdrFull n)) e0 false = ParseHeadersOut.done n true := by
  rw [splitLines_hdrFull]
  have hdec : "Content-Length: ".data ++ natDigits n ++ [CR] =
      clColon ++ (Char.ofNat 32 :: (natDigits n ++ [CR])) := rfl
  have hne1 : ("Content-Length: ".data ++ natDigits n ++ [CR]).isEmpty = false := by
    rw [hdec]
    rfl
  have hstart1 : listStartsWith clColon ("Content-Length: ".data ++ natDigits n ++ [CR]) = true := by
    rw [hdec]
    exact listStartsWith_append_self _ _
  have hdrop : ("Content-Length: ".data ++ natDigits n ++ [CR]).drop 15 =
      Char.ofNat 32 :: (natDigits n ++ [CR]) := by
    rw [hdec]
    rfl
  have hstoi : stoi (("Content-Length: ".data ++ natDigits n ++ [CR]).drop 15) = some (n : Int) := by
    rw [hdrop, stoi_space_digits n [CR] (by decide)]
    rw [if_neg (by omega)]
  simp only [parseHeaderLines, hne1, hstart1, hstoi]
  simp only [Bool.false_eq_true, if_false, if_true]
  have hct1 : (("Content-Type: ".data ++ contentTypeDefault)).isEmpty = false := rfl
  have hct2 : listStartsWith clColon ("Content-Type: ".data ++ contentTypeDefault) = false := by
    decide
  simp only [parseHeaderLines, hct1, hct2, Bool.false_eq_true, if_false]
  rw [intToSize_coe n (by omega)]

theorem parseHeader_hdrFull_overflow (n e0 : Nat) (hn : 2147483647 < n) :
    parseHeaderLines (splitLines (hdrFull n)) e0 false = ParseHeadersOut.thrown e0 := by
  rw [splitLines_hdrFull]
  have hdec : "Content-Length: ".data ++ natDigits n ++ [CR] =
      clColon ++ (Char.ofNat 32 :: (natDigits n ++ [CR])) := rfl
  have hne1 : ("Content-Length: ".data ++ natDigits n ++ [CR]).isEmpty = false := by
    rw [hdec]
    rfl
  have hstart1 : listStartsWith clColon ("Content-Length: ".data ++ natDigits n ++ [CR]) = true := by
    rw [hdec]
    exact listStartsWith_append_self _ _
  have hstoi : stoi (("Content-Length: ".data ++ natDigits n ++ [CR]).drop 15) = none := by
    rw [hdec]
    rw [show (clColon ++ (Char.ofNat 32 :: (natDigits n ++ [CR]))).drop 15 =
        Char.ofNat 32 :: (natDigits n ++ [CR]) from rfl]
    rw [stoi_space_digits n [CR] (by decide)]
    rw [if_pos hn]
  simp only [parseHeaderLines, hne1, hstart1, hstoi]
  simp only [Bool.false_eq_true, if_false, if_true]

theorem tryDeframe_header_none (buf : List Char) (hfind : findSubstr crlf2 buf = none) :
    tryDeframe freshFS buf = (freshFS, {}) := by
  simp [tryDeframe, freshFS, hfind]

theorem tryDeframe_cached (buf : List Char) (n hs : Nat) :
    tryDeframe ⟨true, n, hs⟩ buf =
      if buf.length < (hs + n) % 18446744073709551616 then ((⟨true, n, hs⟩ : FramerState), ({} : DeframeResult))
      else (freshFS, { complete := true, message := (buf.drop hs).take n,
                       consumed_bytes := (hs + n) % 18446744073709551616 }) := by
  simp only [tryDeframe, freshFS]
  rfl

theorem tryDeframe_header_found (buf : List Char) (pos n : Nat)
    (hfind : findSubstr crlf2 buf = some pos)
    (hparse : parseHeaderLines (splitLines (buf.take pos)) 0 false = ParseHeadersOut.done n true)
    (hsmall : pos + 4 + n < 18446744073709551616) :
    tryDeframe freshFS buf =
      if buf.length < pos + 4 + n then ((⟨true, n, pos + 4⟩ : FramerState), ({} : DeframeResult))
      else (freshFS, { complete := true, message := (buf.drop (pos + 4)).take n,
                       consumed_bytes := pos + 4 + n }) := by
  have hmod : (pos + 4 + n) % 18446744073709551616 = pos + 4 + n := Nat.mod_eq_of_lt hsmall
  simp only [tryDeframe, freshFS, hfind, hparse, hmod]
  rfl

theorem tryDeframe_header_thrown (buf : List Char) (pos : Nat)
    (hfind : findSubstr crlf2 buf = some pos)
    (hparse : parseHeaderLines (splitLines (buf.take pos)) 0 false = ParseHeadersOut.thrown 0) :
    tryDeframe freshFS buf = (freshFS, { error := "Invalid Content-Length header" }) := by
  simp only [tryDeframe, freshFS, hfind, hparse]
  rfl

theorem frame_eq_parts (p : List Char) : frame p = hdrFull p.length ++ (crlf2 ++ p) := by
  simp only [frame, frameCT, hdrFull, crlf2, List.append_assoc, List.cons_append,
    List.nil_append]

theorem frame_length (p : List Char) :
    (frame p).length = (hdrFull p.length).length + 4 + p.length := by
  rw [frame_eq_parts, List.length_append, List.length_append]
  rw [show crlf2.length = 4 from rfl]
  omega

theorem frame_parts_small (p : List Char) (hn : p.length ≤ 2147483647) :
    (hdrFull p.length).length + 4 + p.length < 18446744073709551616 := by
  rw [hdrFull_length]
  have := natDigits_length_le p.length
  omega

theorem tryDeframe_frame (p rest : List Char) (hn : p.length ≤ 2147483647) :
    tryDeframe freshFS (frame p ++ rest) =
      (freshFS, { complete := true, message := p, consumed_bytes := (frame p).length }) := by
  have hparts : frame p ++ rest = hdrFull p.length ++ (crlf2 ++ (p ++ rest)) := by
    rw [frame_eq_parts]
    simp [List.append_assoc]
  have hfind : findSubstr crlf2 (frame p ++ rest) = some (hdrFull p.length).length := by
    rw [hparts, find_frame_core]
  have htake : (frame p ++ rest).take (hdrFull p.length).length = hdrFull p.length := by
    rw [hparts, List.take_left]
  have hparse : parseHeaderLines (splitLines ((frame p ++ rest).take (hdrFull p.length).length))
      0 false = ParseHeadersOut.done p.length true := by
    rw [htake]
    exact parseHeader_hdrFull p.length 0 hn
  rw [tryDeframe_header_found (frame p ++ rest) (hdrFull p.length).length p.length hfind hparse
    (frame_parts_small p hn)]
  have hlen : (frame p ++ rest).length = (hdrFull p.length).length + 4 + p.length + rest.length := by
    rw [List.length_append, frame_length]
  rw [if_neg (by omega)]
  have hdrop : (frame p ++ rest).drop ((hdrFull p.length).length + 4) = p ++ rest := by
    have h2 : frame p ++ rest = (hdrFull p.length ++ crlf2) ++ (p ++ rest) := by
      rw [hparts]
      simp [List.append_assoc]
    rw [h2]
    rw [show (hdrFull p.length).length + 4 = (hdrFull p.length ++ crlf2).length from by
      rw [List.length_append]; rfl]
    exact List.drop_left _ _
  rw [hdrop]
  rw [show (p ++ rest).take p.length = p from List.take_left p rest]
  rw [frame_length]

theorem tryDeframe_frame_overflow (p rest : List Char) (hn : 2147483647 < p.length) :
    tryDeframe freshFS (frame p ++ rest) =
      (freshFS, { error := "Invalid Content-Length header" }) := by
  have hparts : frame p ++ rest = hdrFull p.length ++ (crlf2 ++ (p ++ rest)) := by
    rw [frame_eq_parts]
    simp [List.append_assoc]
  have hfind : findSubstr crlf2 (frame p ++ rest) = some (hdrFull p.length).length := by
    rw [hparts, find_frame_core]
  have htake : (frame p ++ rest).take (hdrFull p.length).length = hdrFull p.length := by
    rw [hparts, List.take_left]
  have hparse : parseHeaderLines (splitLines ((frame p ++ rest).take (hdrFull p.length).length))
      0 false = ParseHeadersOut.thrown 0 := by
    rw [htake]
    exact parseHeader_hdrFull_overflow p.length 0 hn
  exact tryDeframe_header_thrown _ _ hfind hparse

theorem stEq_freshFS (buf : List Char) : StEq freshFS buf := fun _ => rfl

theorem tryDeframe_fresh_done (buf : List Char) (pos e : Nat)
    (hfind : findSubstr crlf2 buf = some pos)
    (hparse : parseHeaderLines (splitLines (buf.take pos)) 0 false =
      ParseHeadersOut.done e true) :
    tryDeframe freshFS buf =
      if buf.length < (pos + 4 + e) % 18446744073709551616 then
        ((⟨true, e, pos + 4⟩ : FramerState), ({} : DeframeResult))
      else (freshFS, { complete := true, message := (buf.drop (pos + 4)).take e,
                       consumed_bytes := (pos + 4 + e) % 18446744073709551616 }) := by
  simp only [tryDeframe, freshFS, hfind, hparse]
  rfl

theorem tryDeframe_fresh_thrown (buf : List Char) (pos e : Nat)
    (hfind : findSubstr crlf2 buf = some pos)
    (hparse : parseHeaderLines (splitLines (buf.take pos)) 0 false =
      ParseHeadersOut.thrown e) :
    tryDeframe freshFS buf =
      ((⟨false, e, 0⟩ : FramerState), { error := "Invalid Content-Length header" }) := by
  simp only [tryDeframe, freshFS, hfind, hparse]
  rfl

theorem tryDeframe_fresh_missing (buf : List Char) (pos e : Nat)
    (hfind : findSubstr crlf2 buf = some pos)
    (hparse : parseHeaderLines (splitLines (buf.take pos)) 0 false =
      ParseHeadersOut.done e false) :
    tryDeframe freshFS buf =
      ((⟨false, e, 0⟩ : FramerState), { error := "Missing Content-Length header" }) := by
  simp only [tryDeframe, freshFS, hfind, hparse]
  rfl

theorem stEq_cached_header (buf : List Char) (pos e : Nat)
    (hfind : findSubstr crlf2 buf = some pos)
    (hparse : parseHeaderLines (splitLines (buf.take pos)) 0 false =
      ParseHeadersOut.done e true) :
    StEq ⟨true, e, pos + 4⟩ buf := by
  intro ext
  have hfits := findSubstr_crlf2_fits buf pos hfind
  have hfind2 : findSubstr crlf2 (buf ++ ext) = some pos := findSubstr_append_found _ _ _ hfind
  have hparse2 : parseHeaderLines (splitLines ((buf ++ ext).take pos)) 0 false =
      ParseHeadersOut.done e true := by
    rw [List.take_append_of_le_length (by omega)]
    exact hparse
  rw [tryDeframe_fresh_done (buf ++ ext) pos e hfind2 hparse2, tryDeframe_cached]

theorem stEq_of_incomplete (buf : List Char)
    (hc : (tryDeframe freshFS buf).2.complete = false)
    (he : (tryDeframe freshFS buf).2.error = "") :
    StEq (tryDeframe freshFS buf).1 buf := by
  cases hfind : findSubstr crlf2 buf with
  | none =>
    rw [tryDeframe_header_none buf hfind]
    exact stEq_freshFS buf
  | some pos =>
    cases hparse : parseHeaderLines (splitLines (buf.take pos)) 0 false with
    | thrown exp =>
      rw [tryDeframe_fresh_thrown buf pos exp hfind hparse] at he
      simp at he
    | done exp found =>
      cases found with
      | false =>
        rw [tryDeframe_fresh_missing buf pos exp hfind hparse] at he
        simp at he
      | true =>
        rw [tryDeframe_fresh_done buf pos exp hfind hparse] at hc ⊢
        by_cases hlt : buf.length < (pos + 4 + exp) % 18446744073709551616
        · rw [if_pos hlt]
          exact stEq_cached_header buf pos exp hfind hparse
        · rw [if_neg hlt] at hc
          simp at hc

theorem tryDeframe_frame_take (p : List Char) (L : Nat) (hn : p.length ≤ 2147483647)
    (hL : L < (frame p).length) :
    (tryDeframe freshFS ((frame p).take L)).2 = ({} : DeframeResult) := by
  have hfind_full : findSubstr crlf2 (frame p) = some (hdrFull p.length).length := by
    rw [frame_eq_parts]
    exact find_frame_core p.length p
  by_cases hcase : L < (hdrFull p.length).length + 4
  · rw [tryDeframe_header_none _ (findSubstr_take_none _ _ _ hfind_full hcase)]
  · have hfind : findSubstr crlf2 ((frame p).take L) = some (hdrFull p.length).length :=
      findSubstr_take_some _ _ _ hfind_full (by omega)
    have htake : ((frame p).take L).take (hdrFull p.length).length = hdrFull p.length := by
      rw [List.take_take, show (hdrFull p.length).length ⊓ L = (hdrFull p.length).length from by
        omega]
      rw [frame_eq_parts, List.take_left]
    have hparse : parseHeaderLines (splitLines (((frame p).take L).take
        (hdrFull p.length).length)) 0 false = ParseHeadersOut.done p.length true := by
      rw [htake]
      exact parseHeader_hdrFull p.length 0 hn
    rw [tryDeframe_fresh_done _ _ _ hfind hparse]
    have hmod : ((hdrFull p.length).length + 4 + p.length) % 18446744073709551616 =
        (hdrFull p.length).length + 4 + p.length :=
      Nat.mod_eq_of_lt (frame_parts_small p hn)
    rw [hmod, if_pos]
    rw [List.length_take]
    rw [frame_length] at hL ⊢
    omega

theorem stEq_self (st : FramerState) (buf : List Char) (h : StEq st buf) :
    tryDeframe st buf = tryDeframe freshFS buf := by
  have := h []
  rwa [List.append_nil] at this

theorem stEq_append (st : FramerState) (buf c : List Char) (h : StEq st buf) :
    StEq st (buf ++ c) := by
  intro ext
  rw [List.append_assoc]
  exact h (c ++ ext)

theorem streamOf_nil : streamOf [] = [] := rfl

theorem streamOf_cons (p : List Char) (ps : List (List Char)) :
    streamOf (p :: ps) = frame p ++ streamOf ps := by
  simp [streamOf]

theorem streamOf_append (qs rs : List (List Char)) :
    streamOf (qs ++ rs) = streamOf qs ++ streamOf rs := by
  simp [streamOf]

theorem frame_length_pos (p : List Char) : 0 < (frame p).length := by
  rw [frame_length, hdrFull_length]
  omega

theorem drainFuel_stream (ps : List (List Char)) :
    ∀ (fuel : Nat) (st : FramerState) (buf : List Char),
      buf.length ≤ fuel →
      (∀ p ∈ ps, p.length ≤ 2147483647) →
      StEq st buf →
      (∃ t, buf ++ t = streamOf ps) →
      ∃ (qs rs : List (List Char)) (st2 : FramerState) (buf2 : List Char),
        ps = qs ++ rs ∧
        drainFuel fuel st buf = (qs, st2, buf2) ∧
        StEq st2 buf2 ∧
        buf = streamOf qs ++ buf2 ∧
        ((rs = [] ∧ buf2 = []) ∨
          ∃ r rs2, rs = r :: rs2 ∧ buf2.length < (frame r).length ∧
            ∃ t2, buf2 ++ t2 = frame r ++ streamOf rs2) := by
  induction ps with
  | nil =>
    intro fuel st buf hfuel hbound hsteq hpre
    obtain ⟨t, ht⟩ := hpre
    rw [streamOf_nil] at ht
    have hbuf : buf = [] := by
      have := congrArg List.length ht
      simp [List.length_append] at this
      exact this.1
    subst hbuf
    cases fuel with
    | zero =>
      exact ⟨[], [], st, [], rfl, rfl, hsteq, rfl, Or.inl ⟨rfl, rfl⟩⟩
    | succ f =>
      have hde : tryDeframe st [] = (freshFS, ({} : DeframeResult)) := by
        rw [stEq_self st [] hsteq]
        exact tryDeframe_header_none [] rfl
      refine ⟨[], [], freshFS, [], rfl, ?_, stEq_freshFS [], rfl, Or.inl ⟨rfl, rfl⟩⟩
      simp [drainFuel, hde]
  | cons p ps2 ih =>
    intro fuel st buf hfuel hbound hsteq hpre
    obtain ⟨t, ht⟩ := hpre
    rw [streamOf_cons] at ht
    have hp : p.length ≤ 2147483647 := hbound p (List.mem_cons_self p ps2)
    by_cases hsh : buf.length < (frame p).length
    · have hbuf : buf = (frame p).take buf.length := by
        have h1 := congrArg (List.take buf.length) ht
        rw [List.take_append_of_le_length (le_refl buf.length)] at h1
        rw [List.take_append_of_le_length (by omega)] at h1
        rw [List.take_length] at h1
        exact h1
      have hde2 : (tryDeframe freshFS buf).2 = ({} : DeframeResult) := by
        conv_lhs => rw [hbuf]
        exact tryDeframe_frame_take p buf.length hp hsh
      have hde : tryDeframe st buf = tryDeframe freshFS buf := stEq_self st buf hsteq
      have hstrict : ∃ r rs2, (p :: ps2) = r :: rs2 ∧ buf.length < (frame r).length ∧
          ∃ t2, buf ++ t2 = frame r ++ streamOf rs2 := ⟨p, ps2, rfl, hsh, t, ht⟩
      cases fuel with
      | zero =>
        exact ⟨[], p :: ps2, st, buf, rfl, rfl, hsteq, rfl, Or.inr hstrict⟩
      | succ f =>
        refine ⟨[], p :: ps2, (tryDeframe freshFS buf).1, buf, rfl, ?_, ?_, rfl, Or.inr hstrict⟩
        · simp only [drainFuel, hde]
          rw [show (tryDeframe freshFS buf) = ((tryDeframe freshFS buf).1,
            (tryDeframe freshFS buf).2) from rfl, hde2]
          rfl
        · exact stEq_of_incomplete buf (by rw [hde2]) (by rw [hde2])
    · have hbuf : buf = frame p ++ buf.drop (frame p).length := by
        have h1 : buf.take (frame p).length = frame p := by
          have h2 := congrArg (List.take (frame p).length) ht
          rw [List.take_append_of_le_length (by omega)] at h2
          rw [List.take_left] at h2
          exact h2
        conv_lhs => rw [← List.take_append_drop (frame p).length buf]
        rw [h1]
      have hde : tryDeframe st buf =
          (freshFS, { complete := true, message := p,
                      consumed_bytes := (frame p).length }) := by
        rw [stEq_self st buf hsteq]
        conv_lhs => rw [hbuf]
        exact tryDeframe_frame p (buf.drop (frame p).length) hp
      have hppos := frame_length_pos p
      cases fuel with
      | zero => omega
      | succ f =>
        have hrest : buf.drop (frame p).length ++ t = streamOf ps2 := by
          have h3 : (frame p ++ buf.drop (frame p).length) ++ t =
              frame p ++ streamOf ps2 := by rw [← hbuf]; exact ht
          rw [List.append_assoc] at h3
          exact List.append_cancel_left h3
        obtain ⟨qs, rs, st2, buf2, hps, hdrain, hsteq2, hbufeq, hhead⟩ :=
          ih f freshFS (buf.drop (frame p).length)
            (by rw [List.length_drop]; omega)
            (fun q hq => hbound q (List.mem_cons_of_mem p hq))
            (stEq_freshFS _) ⟨t, hrest⟩
        refine ⟨p :: qs, rs, st2, buf2, by rw [hps, List.cons_append], ?_, hsteq2, ?_, hhead⟩
        · simp only [drainFuel, hde]
          rw [hdrain]
          simp
        · rw [streamOf_cons, List.append_assoc, ← hbufeq]
          exact hbuf

theorem feedChunks_stream :
    ∀ (chunks ps : List (List Char)) (st : FramerState) (buf : List Char),
      (∀ p ∈ ps, p.length ≤ 2147483647) →
      StEq st buf →
      ((ps = [] ∧ buf = []) ∨
        ∃ r rs2, ps = r :: rs2 ∧ buf.length < (frame r).length ∧
          ∃ t, buf ++ t = frame r ++ streamOf rs2) →
      buf ++ chunks.flatten = streamOf ps →
      feedChunks st buf chunks = ps := by
  intro chunks
  induction chunks with
  | nil =>
    intro ps st buf hbound hsteq hhead hstream
    rw [List.flatten_nil, List.append_nil] at hstream
    cases hhead with
    | inl hempty =>
      rw [hempty.1]
      rfl
    | inr hstrict =>
      obtain ⟨r, rs2, hps, hlen, _, _⟩ := hstrict
      exfalso
      rw [hps, streamOf_cons] at hstream
      have := congrArg List.length hstream
      rw [List.length_append] at this
      omega
  | cons c cs ih =>
    intro ps st buf hbound hsteq hhead hstream
    rw [List.flatten_cons, ← List.append_assoc] at hstream
    obtain ⟨qs, rs, st2, buf2, hps, hdrain, hsteq2, hbufeq, hhead2⟩ :=
      drainFuel_stream ps (buf ++ c).length st (buf ++ c) (le_refl _) hbound
        (stEq_append st buf c hsteq) ⟨cs.flatten, hstream⟩
    have hrest : buf2 ++ cs.flatten = streamOf rs := by
      rw [hps, streamOf_append] at hstream
      rw [hbufeq, List.append_assoc] at hstream
      exact List.append_cancel_left hstream
    have hbound2 : ∀ p ∈ rs, p.length ≤ 2147483647 := by
      intro q hq
      exact hbound q (by rw [hps]; exact List.mem_append_right qs hq)
    have hhead3 : (rs = [] ∧ buf2 = []) ∨
        ∃ r rs2, rs = r :: rs2 ∧ buf2.length < (frame r).length ∧
          ∃ t, buf2 ++ t = frame r ++ streamOf rs2 := by
      cases hhead2 with
      | inl h => exact Or.inl h
      | inr h => exact Or.inr h
    have hih := ih rs st2 buf2 hbound2 hsteq2 hhead3 hrest
    show (fun gr =>
      (fun out => out.1 ++ feedChunks out.2.1 out.2.2 cs) (drainFuel gr.length st gr)) (buf ++ c) = ps
    simp only
    rw [hdrain]
    simp only
    rw [hih, hps]

/-- C1 (amended): for payloads short enough that `Content-Length` parses
back within the 32-bit `int` range of `std::stoi` (length at most
2147483647), framing round-trips through a fresh deframer, and a
concatenation of frames delivered in any chunking makes the deframer emit
exactly the original payload sequence in order. -/
theorem framer_round_trip_chunked :
    (∀ p : List Char, p.length ≤ 2147483647 →
      tryDeframe freshFS (frame p) =
        (freshFS, { complete := true, message := p,
                    consumed_bytes := (frame p).length })) ∧
    (∀ (ps chunks : List (List Char)),
      (∀ p ∈ ps, p.length ≤ 2147483647) →
      chunks.flatten = streamOf ps →
      feedChunks freshFS [] chunks = ps) := by
  constructor
  · intro p hp
    have := tryDeframe_frame p [] hp
    rwa [List.append_nil] at this
  · intro ps chunks hbound hstream
    apply feedChunks_stream chunks ps freshFS [] hbound (stEq_freshFS [])
    · cases ps with
      | nil => exact Or.inl ⟨rfl, rfl⟩
      | cons r rs2 =>
        exact Or.inr ⟨r, rs2, rfl, by simpa using frame_length_pos r,
          streamOf (r :: rs2), by rw [streamOf_cons]; rfl⟩
    · rw [List.nil_append]
      exact hstream

/-- C1 counterexample: for the 2^31-byte payload (beyond the `int` range of
`std::stoi`), deframing its own framing does not return the payload — the
framer reports the header as invalid, because `std::stoi` throws
`std::out_of_range` on `"2147483648"`. -/
theorem framer_round_trip_cex :
    (tryDeframe freshFS (frame (List.replicate 2147483648 'a'))).2.complete = false ∧
    (tryDeframe freshFS (frame (List.replicate 2147483648 'a'))).2.error =
      "Invalid Content-Length header" := by
  have h := tryDeframe_frame_overflow (List.replicate 2147483648 'a') []
    (by rw [List.length_replicate]; omega)
  rw [List.append_nil] at h
  rw [h]
  exact ⟨rfl, rfl⟩

set_option maxRecDepth 8000 in
/-- Witness for `framer_round_trip_chunked`: the two payloads `"ab"` and
`"xyz"`, framed, concatenated and delivered byte by byte, are emitted in
order. -/
theorem framer_round_trip_chunked_witness :
    tryDeframe freshFS (frame "ab".data) =
      (freshFS, { complete := true, message := "ab".data,
                  consumed_bytes := (frame "ab".data).length }) ∧
    feedChunks freshFS [] ((frame "ab".data ++ frame "xyz".data).map (fun c => [c])) =
      ["ab".data, "xyz".data] := by
  constructor
  · exact framer_round_trip_chunked.1 "ab".data (by decide)
  · apply framer_round_trip_chunked.2 ["ab".data, "xyz".data]
    · intro p hp
      simp only [List.mem_cons, List.not_mem_nil, or_false] at hp
      rcases hp with rfl | rfl <;> decide
    · decide

theorem c9_find_none : ∀ k, k < 22 → findSubstr crlf2 (c9Header.take k) = none := by
  decide

theorem c9_find (ys : List Char) : findSubstr crlf2 (c9Header ++ ys) = some 18 := by
  rw [show c9Header ++ ys = "Content-Length: 32".data ++ (crlf2 ++ ys) from by
    simp [c9Header, List.append_assoc]]
  rw [findSubstr_append_no_cr _ _ (by decide), findSubstr_crlf2_start]
  rfl

theorem c9_parse : parseHeaderLines (splitLines ("Content-Length: 32".data)) 0 false =
    ParseHeadersOut.done 32 true := rfl

theorem c9_take18 (ys : List Char) : (c9Header ++ ys).take 18 = "Content-Length: 32".data := by
  rw [show c9Header ++ ys = "Content-Length: 32".data ++ (crlf2 ++ ys) from by
    simp [c9Header, List.append_assoc]]
  rw [show (18 : Nat) = ("Content-Length: 32".data).length from rfl, List.take_left]

theorem c9_take_incomplete (p : List Char) (hp : p.length = 32) (k : Nat) (hk : k ≤ 53) :
    (tryDeframe freshFS ((c9Header ++ p).take k)).2 = ({} : DeframeResult) := by
  have h22 : c9Header.length = 22 := rfl
  by_cases hk22 : k < 22
  · have htk : (c9Header ++ p).take k = c9Header.take k :=
      List.take_append_of_le_length (by omega)
    rw [htk, tryDeframe_header_none _ (c9_find_none k hk22)]
  · have htk : (c9Header ++ p).take k = c9Header ++ p.take (k - 22) := by
      rw [List.take_append_eq_append_take, List.take_of_length_le (by omega), h22]
    rw [htk]
    have hparse : parseHeaderLines (splitLines ((c9Header ++ p.take (k - 22)).take 18)) 0 false =
        ParseHeadersOut.done 32 true := by
      rw [c9_take18]
      exact c9_parse
    rw [tryDeframe_fresh_done _ 18 32 (c9_find _) hparse]
    rw [show (18 + 4 + 32) % 18446744073709551616 = 54 from rfl]
    rw [if_pos]
    rw [List.length_append, List.length_take, h22]
    omega

theorem c9_take_final (p : List Char) (hp : p.length = 32) :
    tryDeframe freshFS ((c9Header ++ p).take 54) =
      (freshFS, { complete := true, message := p, consumed_bytes := 54 }) := by
  have h22 : c9Header.length = 22 := rfl
  have hlen : (c9Header ++ p).length = 54 := by
    rw [List.length_append, h22, hp]
  have htk : (c9Header ++ p).take 54 = c9Header ++ p := List.take_of_length_le (by omega)
  rw [htk]
  have hparse : parseHeaderLines (splitLines ((c9Header ++ p).take 18)) 0 false =
      ParseHeadersOut.done 32 true := by
    rw [c9_take18]
    exact c9_parse
  rw [tryDeframe_fresh_done _ 18 32 (c9_find _) hparse]
  rw [show (18 + 4 + 32) % 18446744073709551616 = 54 from rfl]
  rw [if_neg (by omega)]
  have hdrop : (c9Header ++ p).drop 22 = p := by
    rw [← h22, List.drop_left]
  rw [show (18 + 4 : Nat) = 22 from rfl, hdrop, ← hp, List.take_length]

theorem c9_stEq (p : List Char) (hp : p.length = 32) :
    ∀ k, k ≤ 53 → StEq (byteStates (c9Header ++ p) k) ((c9Header ++ p).take k) := by
  intro k
  induction k with
  | zero =>
    intro _
    exact stEq_freshFS _
  | succ k ihk =>
    intro hk
    have ihs := ihk (by omega)
    have hstep : tryDeframe (byteStates (c9Header ++ p) k) ((c9Header ++ p).take (k + 1)) =
        tryDeframe freshFS ((c9Header ++ p).take (k + 1)) := by
      rw [List.take_succ]
      exact ihs _
    show StEq (tryDeframe (byteStates (c9Header ++ p) k) ((c9Header ++ p).take (k + 1))).1
      ((c9Header ++ p).take (k + 1))
    rw [hstep]
    apply stEq_of_incomplete
    · rw [c9_take_incomplete p hp (k + 1) (by omega)]
    · rw [c9_take_incomplete p hp (k + 1) (by omega)]

theorem c9_byteResult_incomplete (p : List Char) (hp : p.length = 32) (k : Nat)
    (hk : k + 1 < 54) : byteResult (c9Header ++ p) k = ({} : DeframeResult) := by
  show (tryDeframe (byteStates (c9Header ++ p) k) ((c9Header ++ p).take (k + 1))).2 = _
  have hstep : tryDeframe (byteStates (c9Header ++ p) k) ((c9Header ++ p).take (k + 1)) =
      tryDeframe freshFS ((c9Header ++ p).take (k + 1)) := by
    rw [List.take_succ]
    exact c9_stEq p hp k (by omega) _
  rw [hstep]
  exact c9_take_incomplete p hp (k + 1) (by omega)

theorem c9_byteResult_final (p : List Char) (hp : p.length = 32) :
    byteResult (c9Header ++ p) 53 =
      { complete := true, message := p, consumed_bytes := 54 } := by
  show (tryDeframe (byteStates (c9Header ++ p) 53) ((c9Header ++ p).take 54)).2 = _
  have hstep : tryDeframe (byteStates (c9Header ++ p) 53) ((c9Header ++ p).take 54) =
      tryDeframe freshFS ((c9Header ++ p).take 54) := by
    rw [List.take_succ]
    exact c9_stEq p hp 53 (by omega) _
  rw [hstep, c9_take_final p hp]

/-- C9 counterexample: feeding `"Content-Length: 32\r\n\r\n"` followed by a
concrete 32-byte payload byte by byte, the complete result after the final
byte has `consumed_bytes = 54` (the header block alone is 22 bytes), not 52
as the claim states. -/
theorem framer_byte_feed_cex :
    byteResult (c9Header ++ List.replicate 32 'x') 53 =
      { complete := true, message := List.replicate 32 'x', consumed_bytes := 54 } ∧
    (54 : Nat) ≠ 52 :=
  ⟨c9_byteResult_final (List.replicate 32 'x') (List.length_replicate 32 'x'),
   by decide⟩

/-- C9 (amended): feeding the bytes of `"Content-Length: 32\r\n\r\n"`
followed by a 32-byte payload one byte at a time to `TryDeframe` yields a
need-more (incomplete, no error) outcome after every byte except the last,
and after the final byte yields exactly one complete result whose message is
the 32-byte payload and whose `consumed_bytes` is 54. -/
theorem framer_byte_feed (p : List Char) (hp : p.length = 32) :
    (∀ k, k + 1 < 54 → byteResult (c9Header ++ p) k = ({} : DeframeResult)) ∧
    byteResult (c9Header ++ p) 53 =
      { complete := true, message := p, consumed_bytes := 54 } :=
  ⟨fun k hk => c9_byteResult_incomplete p hp k hk, c9_byteResult_final p hp⟩

/-- Witness for `framer_byte_feed` at the payload of 32 `'y'` bytes,
sampled after byte 11 (need more) and after the final byte 54. -/
theorem framer_byte_feed_witness :
    byteResult (c9Header ++ List.replicate 32 'y') 10 = ({} : DeframeResult) ∧
    byteResult (c9Header ++ List.replicate 32 'y') 53 =
      { complete := true, message := List.replicate 32 'y', consumed_bytes := 54 } :=
  ⟨(framer_byte_feed (List.replicate 32 'y') (List.length_replicate 32 'y')).1 10 (by omega),
   (framer_byte_feed (List.replicate 32 'y') (List.length_replicate 32 'y')).2⟩
